import Mathlib

/-!
# Verification of the `ai-cfo-agent` analysis engine

A shallow embedding of the computational core in `src/agents/analysis.py`:
weekly KPI snapshots, anomaly merging, the Monte Carlo survival simulation,
the scenario stress test, the fraud pattern scanner and the customer profile
aggregator, together with proofs and refutations of the specified properties.

Modelling conventions:
* Python floats and `Decimal` values are modelled as rationals (`ℚ`).
  `math.isclose(d, 0.0)` with the default tolerances holds exactly when
  `d == 0.0`, so `_safe_div` is embedded with an exact zero test.
* Dates are modelled as integers counting days, with day `0` falling on a
  Monday, so `weekday(d) = d % 7` and truncation to the Monday of the week
  (`polars` `dt.truncate("1w")` and `_week_of`) is `d - d % 7`.
* Python `round(x, n)` and fixed-width float formatting round half to even;
  `Decimal.quantize(..., ROUND_HALF_UP)` rounds half away from zero.
  Both are embedded exactly on `ℚ`.
* Python `dict`s preserve insertion order; they are embedded as association
  lists with in-place update and insertion at the tail.
-/

set_option maxRecDepth 4000

/-! # Part 1: definitions -/

/-! ## Numeric helpers -/

/-- Computable floor of a rational (Euclidean division of numerator by
denominator); agrees with `Int.floor` by `ratFloor_eq`. -/
def ratFloor (x : ℚ) : ℤ := x.num / (x.den : ℤ)

/-- Round half to even to an integer (the rounding of Python `round` and of
fixed four-decimal float formatting). -/
def roundHalfEven (x : ℚ) : ℤ :=
  if x - (ratFloor x : ℚ) < 1/2 then ratFloor x
  else if 1/2 < x - (ratFloor x : ℚ) then ratFloor x + 1
  else if ratFloor x % 2 = 0 then ratFloor x else ratFloor x + 1

/-- Python `round(x, n)`: round half to even at scale `10^n`. -/
def pyRound (n : ℕ) (x : ℚ) : ℚ := ((roundHalfEven (x * 10 ^ n) : ℤ) : ℚ) / 10 ^ n

/-- Embeds `Decimal.quantize` with `ROUND_HALF_UP` (ties away from zero) at scale `s`
(`s = 100` for two decimal places, `s = 10000` for four); embeds `_as_decimal`. -/
def quantHalfUp (s : ℚ) (x : ℚ) : ℚ :=
  if x < 0 then -(((ratFloor ((-x) * s + 1/2) : ℤ) : ℚ) / s)
  else ((ratFloor (x * s + 1/2) : ℤ) : ℚ) / s

/-- Embeds `_safe_div`: divide, returning `default` on a zero denominator. -/
def safeDiv (numerator denominator default : ℚ) : ℚ :=
  if denominator = 0 then default else numerator / denominator

/-- Embeds `_delta`: relative change, `0` when the previous value is zero. -/
def delta (current previous : ℚ) : ℚ :=
  if previous = 0 then 0 else (current - previous) / |previous|

/-- Python `int()` on a nonnegative-or-negative rational: truncation toward zero. -/
def intTrunc (x : ℚ) : ℤ := if x < 0 then -(ratFloor (-x)) else ratFloor x

/-! ## Anomaly records and the merger (§4.4, `merge_and_deduplicate_anomalies`) -/

/-- Embeds `SeverityType = Literal["LOW", "MEDIUM", "HIGH"]` from `api/schemas.py`. -/
inductive Severity
  | LOW
  | MEDIUM
  | HIGH
deriving DecidableEq

/-- Embeds `AnomalySource = Literal["isolation_forest", "chronos2"]` from `api/schemas.py`.
The spec calls these the statistical and the forecast source. -/
inductive AnomalySource
  | isolation_forest
  | chronos2
deriving DecidableEq

/-- Embeds `AnomalyRecord` from `api/schemas.py` (the opaque `run_id` is dropped). -/
structure AnomalyRecord where
  metric : String
  actual_value : ℚ
  expected_range : ℚ × ℚ × ℚ
  severity : Severity
  source : AnomalySource
  description : String
deriving DecidableEq

/-- Embeds `severity_rank, mapping LOW to 1, MEDIUM to 2, HIGH to 3`. -/
def severityRank : Severity → ℕ
  | .LOW => 1
  | .MEDIUM => 2
  | .HIGH => 3

/-- The deduplication key: metric, the actual value formatted to four
decimal places (rounding half to even), and the description. -/
def anomalyKey (a : AnomalyRecord) : String × ℤ × String :=
  (a.metric, roundHalfEven (a.actual_value * 10000), a.description)

/-- One merge step: the body of the loop in `merge_and_deduplicate_anomalies`
deciding whether `item` replaces the `existing` record under the same key. -/
def mergePick (existing item : AnomalyRecord) : AnomalyRecord :=
  if severityRank existing.severity < severityRank item.severity then item
  else if item.source = .chronos2 ∧ existing.source ≠ .chronos2 then item
  else existing

/-- Insert into the insertion-ordered dict `merged`: update in place if the key
is present, append at the tail otherwise. -/
def insertMerge : List ((String × ℤ × String) × AnomalyRecord) → AnomalyRecord →
    List ((String × ℤ × String) × AnomalyRecord)
  | [], item => [(anomalyKey item, item)]
  | (k, v) :: rest, item =>
    if k = anomalyKey item then (k, mergePick v item) :: rest
    else (k, v) :: insertMerge rest item

/-- Embeds `merge_and_deduplicate_anomalies`: fold the records into the dict and
return `list(merged.values())`. -/
def merge_and_deduplicate_anomalies (anomalies : List AnomalyRecord) : List AnomalyRecord :=
  (anomalies.foldl insertMerge []).map Prod.snd

/-! ### Association-list lemmas for the merge dict -/

/-- Lookup in the insertion-ordered dict. -/
def lookupA : List ((String × ℤ × String) × AnomalyRecord) → (String × ℤ × String) →
    Option AnomalyRecord
  | [], _ => none
  | (k, v) :: rest, q => if k = q then some v else lookupA rest q

/-- The per-key combination realised by the merge loop. -/
def combineKey (acc : Option AnomalyRecord) (r : AnomalyRecord) : Option AnomalyRecord :=
  match acc with
  | none => some r
  | some v => some (mergePick v r)

/-! ### C1: what the merger guarantees per key -/

/-- A statistical HIGH record used in the C1 counterexample. -/
def isoHighC1 : AnomalyRecord :=
  { metric := "mrr", actual_value := 5, expected_range := (0, 0, 0),
    severity := .HIGH, source := .isolation_forest, description := "w1" }

/-- A forecast LOW record with the same deduplication key as `isoHighC1`. -/
def chroLowC1 : AnomalyRecord :=
  { metric := "mrr", actual_value := 5, expected_range := (1, 2, 3),
    severity := .LOW, source := .chronos2, description := "w1" }

/-- Two statistical records sharing a key, used by the C1 witness. -/
def isoLowC1w : AnomalyRecord :=
  { metric := "cac", actual_value := 2, expected_range := (0, 0, 0),
    severity := .LOW, source := .isolation_forest, description := "w2" }

/-- The HIGH-severity statistical record of the C1 witness pair. -/
def isoHighC1w : AnomalyRecord :=
  { metric := "cac", actual_value := 2, expected_range := (0, 1, 2),
    severity := .HIGH, source := .isolation_forest, description := "w2" }

/-! ## Raw transactions and the customer profile aggregator
(§4.8, `compute_customer_profiles`) -/

/-- A raw transaction row (`RawFinancial` in `api/models.py`): the fields the
analysis engine reads. -/
structure RawFinancial where
  date : ℤ
  category : String
  amount : ℚ
  customer_id : Option String
deriving DecidableEq

/-- Embeds `_week_of` / polars `dt.truncate("1w")`: the Monday of the week of `d`. -/
def weekOf (d : ℤ) : ℤ := d - d % 7

/-- The truthiness test `if not row.customer_id: continue`: a row counts only
when `customer_id` is neither null nor the empty string. -/
def hasCustomerId (r : RawFinancial) : Bool :=
  match r.customer_id with
  | none => false
  | some s => s != ""

/-- First-occurrence deduplication (Python `dict`/`set` iteration order),
written with an accumulator so the kernel can evaluate it. -/
def dedupFirstAux {α : Type} [DecidableEq α] : List α → List α → List α
  | _, [] => []
  | seen, a :: rest =>
    if a ∈ seen then dedupFirstAux seen rest
    else a :: dedupFirstAux (a :: seen) rest

/-- Distinct elements of a list, keeping the first occurrence of each. -/
def dedupFirst {α : Type} [DecidableEq α] (l : List α) : List α := dedupFirstAux [] l

/-- Embeds `CustomerProfileRecord`: the fields built by `compute_customer_profiles`
(the opaque `run_id` is dropped). -/
structure CustomerProfileRecord where
  customer_id : String
  total_revenue : ℚ
  weeks_active : ℕ
  avg_weekly_revenue : ℚ
  first_seen : ℤ
  last_seen : ℤ
  churn_flag : Bool
  segment : String
  revenue_pct : ℚ
deriving DecidableEq

/-- The subscription_revenue rows of one customer. -/
def subRowsFor (rows : List RawFinancial) (c : String) : List RawFinancial :=
  rows.filter (fun r => r.category == "subscription_revenue" && r.customer_id == some c)

/-- The keys of `customer_revenue`, in first-insertion order: customers with at
least one subscription_revenue row whose `customer_id` is non-null, non-empty. -/
def custIds (rows : List RawFinancial) : List String :=
  dedupFirst ((rows.filter
    (fun r => hasCustomerId r && r.category == "subscription_revenue")).filterMap
      (fun r => r.customer_id))

/-- Embeds `customer_revenue[cid]`: summed subscription revenue of one customer. -/
def custRevenue (rows : List RawFinancial) (c : String) : ℚ :=
  ((subRowsFor rows c).map (fun r => r.amount)).sum

/-- Embeds `customer_weeks[cid]`: the set the code builds by `add(row.date)` — it
holds the distinct transaction DATES of the customer, not Monday-aligned
weeks. -/
def custDates (rows : List RawFinancial) (c : String) : List ℤ :=
  dedupFirst ((subRowsFor rows c).map (fun r => r.date))

/-- Embeds `weeks_active = len(customer_weeks[cid])`. -/
def weeksActive (rows : List RawFinancial) (c : String) : ℕ :=
  (custDates rows c).length

/-- Minimum of a list with a fallback (the fallback is never reached for a
customer that has at least one subscription row). -/
def minListZ (dflt : ℤ) : List ℤ → ℤ
  | [] => dflt
  | x :: xs => xs.foldl min x

/-- Maximum of a list with a fallback. -/
def maxListZ (dflt : ℤ) : List ℤ → ℤ
  | [] => dflt
  | x :: xs => xs.foldl max x

/-- Embeds `customer_first[cid]`: earliest subscription date. -/
def custFirst (rows : List RawFinancial) (c : String) : ℤ :=
  minListZ 0 ((subRowsFor rows c).map (fun r => r.date))

/-- Embeds `customer_last[cid]`: latest subscription date. -/
def custLast (rows : List RawFinancial) (c : String) : ℤ :=
  maxListZ 0 ((subRowsFor rows c).map (fun r => r.date))

/-- Embeds `cid in churned`: some churn_refund row (with a truthy id) names `c`. -/
def custChurned (rows : List RawFinancial) (c : String) : Bool :=
  rows.any (fun r => r.category == "churn_refund" && r.customer_id == some c)

/-- Embeds `total_revenue = sum(customer_revenue.values())`. -/
def totalRevenue (rows : List RawFinancial) : ℚ :=
  ((custIds rows).map (custRevenue rows)).sum

/-- Build one `CustomerProfileRecord` as the loop body does.  Segment and
`revenue_pct` use the unrounded revenue; the stored `total_revenue` and
`avg_weekly_revenue` are rounded to two decimals. -/
def mkProfile (rows : List RawFinancial) (total : ℚ) (c : String) : CustomerProfileRecord :=
  let revenue := custRevenue rows c
  let wa := weeksActive rows c
  let avg := revenue / (max wa 1 : ℕ)
  { customer_id := c
    total_revenue := pyRound 2 revenue
    weeks_active := wa
    avg_weekly_revenue := pyRound 2 avg
    first_seen := custFirst rows c
    last_seen := custLast rows c
    churn_flag := custChurned rows c
    segment := if 500 < avg then "Enterprise" else if 150 < avg then "Mid" else "SMB"
    revenue_pct := if 0 < total then pyRound 4 (revenue / total) else 0 }

/-- Stable insertion for the descending `sorted(..., reverse=True)`: a profile
goes after every already-placed profile of greater-or-equal revenue. -/
def insertByRevenue (p : CustomerProfileRecord) :
    List CustomerProfileRecord → List CustomerProfileRecord
  | [] => [p]
  | q :: qs =>
    if q.total_revenue < p.total_revenue then p :: q :: qs
    else q :: insertByRevenue p qs

/-- Embeds `sorted(profiles, key=total_revenue, reverse=True)` (stable). -/
def sortByRevenueDesc (l : List CustomerProfileRecord) : List CustomerProfileRecord :=
  l.foldl (fun acc p => insertByRevenue p acc) []

/-- Embeds `compute_customer_profiles`. -/
def compute_customer_profiles (rows : List RawFinancial) : List CustomerProfileRecord :=
  let ids := custIds rows
  if ids = [] then []
  else sortByRevenueDesc (ids.map (mkProfile rows (totalRevenue rows)))

/-! ### Customer profile lemmas -/

/-- Input for the C5 counterexample: three customers with equal revenue. -/
def rowsC5 : List RawFinancial :=
  [{ date := 0, category := "subscription_revenue", amount := 1, customer_id := some "a" },
   { date := 0, category := "subscription_revenue", amount := 1, customer_id := some "b" },
   { date := 0, category := "subscription_revenue", amount := 1, customer_id := some "c" }]

/-- One-customer input used by the C5 witness. -/
def rowsC5w : List RawFinancial :=
  [{ date := 0, category := "subscription_revenue", amount := 100, customer_id := some "a" }]

/-- Input for C6: one customer, two subscription rows on Monday and Tuesday of
the same calendar week. -/
def rowsC6 : List RawFinancial :=
  [{ date := 0, category := "subscription_revenue", amount := 100, customer_id := some "c1" },
   { date := 1, category := "subscription_revenue", amount := 100, customer_id := some "c1" }]

/-! ### C10: which rows and customers produce profiles -/

/-- Input for the C10 witness: a churn row with an id, a subscription row
without one. -/
def rowsC10w : List RawFinancial :=
  [{ date := 0, category := "churn_refund", amount := -50, customer_id := some "a" },
   { date := 0, category := "subscription_revenue", amount := 10, customer_id := none }]

/-! ## Weekly snapshot builder (§4.1, `compute_kpi_snapshots`) -/

/-- Insertion into a sorted list of week starts. -/
def insertSortedZ (x : ℤ) : List ℤ → List ℤ
  | [] => [x]
  | y :: ys => if x ≤ y then x :: y :: ys else y :: insertSortedZ x ys

/-- Ascending sort (`sort("date")` on the weekly aggregate). -/
def sortZ (l : List ℤ) : List ℤ := l.foldr insertSortedZ []

/-- The distinct week starts of the input, ascending. -/
def sortedWeeks (rows : List RawFinancial) : List ℤ :=
  sortZ (dedupFirst (rows.map (fun r => weekOf r.date)))

/-- Embeds `pl.sum` of one category over one week bucket. -/
def weekCatSum (rows : List RawFinancial) (w : ℤ) (cat : String) : ℚ :=
  ((rows.filter (fun r => weekOf r.date == w && r.category == cat)).map
    (fun r => r.amount)).sum

/-- The `sub_base` frame: subscription_revenue rows with a usable customer id. -/
def subIdRows (rows : List RawFinancial) : List RawFinancial :=
  rows.filter (fun r => r.category == "subscription_revenue" && hasCustomerId r)

/-- All customers appearing in `sub_base`. -/
def subCustomers (rows : List RawFinancial) : List String :=
  dedupFirst ((subIdRows rows).filterMap (fun r => r.customer_id))

/-- Embeds `first_week`: the earliest week a customer has a subscription row. -/
def custFirstWeek (rows : List RawFinancial) (c : String) : ℤ :=
  minListZ 0 (((subIdRows rows).filter (fun r => r.customer_id == some c)).map
    (fun r => weekOf r.date))

/-- Embeds `new_customer_events` of one week: customers whose first week this is. -/
def newCustomerCount (rows : List RawFinancial) (w : ℤ) : ℕ :=
  ((subCustomers rows).filter (fun c => custFirstWeek rows c == w)).length

/-- Embeds `active_customer_count` of one week (`fill_null(1)` and `max(-, 1)`
collapse to a floor of one). -/
def activeCustomerCount (rows : List RawFinancial) (w : ℤ) : ℕ :=
  max (dedupFirst (((subIdRows rows).filter (fun r => weekOf r.date == w)).filterMap
    (fun r => r.customer_id))).length 1

/-- The seven raw (unquantised) KPI metrics of one week, as kept in `hist`. -/
structure MetricMap where
  mrr : ℚ
  arr : ℚ
  churn_rate : ℚ
  burn_rate : ℚ
  gross_margin : ℚ
  cac : ℚ
  ltv : ℚ
deriving DecidableEq

/-- Embeds `KPISnapshotRecord` from `api/schemas.py`: quantised metrics plus the
week-over-week and month-over-month delta maps (opaque `run_id` dropped). -/
structure KPISnapshotRecord where
  week_start : ℤ
  mrr : ℚ
  arr : ℚ
  churn_rate : ℚ
  burn_rate : ℚ
  gross_margin : ℚ
  cac : ℚ
  ltv : ℚ
  wow_delta : MetricMap
  mom_delta : MetricMap
deriving DecidableEq

def zeroMetrics : MetricMap := ⟨0, 0, 0, 0, 0, 0, 0⟩

/-- Python `hist[-n:]`. -/
def lastN {α : Type} (n : ℕ) (l : List α) : List α := l.drop (l.length - n)

/-- Embeds `hist[-k]` when it exists, else the all-zero map (`previous`/`month_back`). -/
def getBack (hist : List MetricMap) (k : ℕ) : MetricMap :=
  if k ≤ hist.length then hist.getD (hist.length - k) zeroMetrics else zeroMetrics

/-- Embeds `wow_delta` / `mom_delta`: per-metric relative change, rounded to 4 dp. -/
def deltaMap (curr prev : MetricMap) : MetricMap :=
  ⟨pyRound 4 (delta curr.mrr prev.mrr),
   pyRound 4 (delta curr.arr prev.arr),
   pyRound 4 (delta curr.churn_rate prev.churn_rate),
   pyRound 4 (delta curr.burn_rate prev.burn_rate),
   pyRound 4 (delta curr.gross_margin prev.gross_margin),
   pyRound 4 (delta curr.cac prev.cac),
   pyRound 4 (delta curr.ltv prev.ltv)⟩

def weekRevenue (rows : List RawFinancial) (w : ℤ) : ℚ :=
  weekCatSum rows w "subscription_revenue"

def weekChurnAbs (rows : List RawFinancial) (w : ℤ) : ℚ :=
  |weekCatSum rows w "churn_refund"|

def weekExpensesTotal (rows : List RawFinancial) (w : ℤ) : ℚ :=
  |weekCatSum rows w "salary_expense"| + |weekCatSum rows w "software_expense"| +
    |weekCatSum rows w "marketing_expense"| + |weekCatSum rows w "cogs"| +
    |weekCatSum rows w "tax_payment"|

def rawMrr (rows : List RawFinancial) (w : ℤ) : ℚ :=
  max (weekRevenue rows w - weekChurnAbs rows w) 0

def rawChurnRate (rows : List RawFinancial) (w : ℤ) : ℚ :=
  min (safeDiv (weekChurnAbs rows w) (weekRevenue rows w) 0) 1

def rawBurnRate (rows : List RawFinancial) (w : ℤ) : ℚ :=
  max (weekExpensesTotal rows w - weekRevenue rows w) 0

def rawGrossMargin (rows : List RawFinancial) (w : ℤ) : ℚ :=
  safeDiv (weekRevenue rows w - |weekCatSum rows w "cogs"|) (weekRevenue rows w) 0

def rawCac (rows : List RawFinancial) (w : ℤ) : ℚ :=
  safeDiv |weekCatSum rows w "marketing_expense"| ((newCustomerCount rows w : ℕ) : ℚ) 0

def rawArpuAnnual (rows : List RawFinancial) (w : ℤ) : ℚ :=
  safeDiv (weekRevenue rows w) ((activeCustomerCount rows w : ℕ) : ℚ) 0 * 52

/-- Trailing churn: the 12-week mean once four weeks of history exist, else
the floored current churn rate. -/
def trailingChurn (rows : List RawFinancial) (hist : List MetricMap) (w : ℤ) : ℚ :=
  if 4 ≤ hist.length then
    ((lastN 12 hist).map (fun m => m.churn_rate)).sum / ((lastN 12 hist).length : ℚ)
  else max (rawChurnRate rows w) (1/1000)

def rawLtv (rows : List RawFinancial) (hist : List MetricMap) (w : ℤ) : ℚ :=
  safeDiv (rawArpuAnnual rows w * max (rawGrossMargin rows w) (1/100))
    (max (trailingChurn rows hist w * 52) (1/20)) 0

/-- The raw metric map of one week given the trailing history. -/
def weekMetrics (rows : List RawFinancial) (hist : List MetricMap) (w : ℤ) : MetricMap :=
  ⟨rawMrr rows w, rawMrr rows w * 12, rawChurnRate rows w, rawBurnRate rows w,
   rawGrossMargin rows w, rawCac rows w, rawLtv rows hist w⟩

/-- One `KPISnapshotRecord` as appended by the loop body. -/
def mkSnapshot (rows : List RawFinancial) (hist : List MetricMap) (w : ℤ) :
    KPISnapshotRecord :=
  let metrics := weekMetrics rows hist w
  { week_start := w
    mrr := quantHalfUp 100 metrics.mrr
    arr := quantHalfUp 100 metrics.arr
    churn_rate := quantHalfUp 10000 metrics.churn_rate
    burn_rate := quantHalfUp 100 metrics.burn_rate
    gross_margin := quantHalfUp 10000 metrics.gross_margin
    cac := quantHalfUp 100 metrics.cac
    ltv := quantHalfUp 100 metrics.ltv
    wow_delta := deltaMap metrics (getBack (hist ++ [metrics]) 2)
    mom_delta := deltaMap metrics (getBack (hist ++ [metrics]) 5) }

/-- The per-week loop, carrying `hist`. -/
def buildSnapshots (rows : List RawFinancial) : List ℤ → List MetricMap →
    List KPISnapshotRecord
  | [], _ => []
  | w :: ws, hist =>
    mkSnapshot rows hist w :: buildSnapshots rows ws (hist ++ [weekMetrics rows hist w])

/-- Embeds `compute_kpi_snapshots` (returns `[]` on an empty frame). -/
def compute_kpi_snapshots (rows : List RawFinancial) : List KPISnapshotRecord :=
  buildSnapshots rows (sortedWeeks rows) []

/-- The error surface of `AnalysisAgent.run`: the two `ValueError` raises. -/
inductive AnalysisRunError
  | no_raw_rows
  | no_snapshots
deriving DecidableEq

/-- The error-relevant prefix of `AnalysisAgent.run`: raise on an empty row
set, raise if no snapshot was computed, otherwise hand the snapshots to the
(total) downstream analyses. -/
def analysisRunSnapshots (rows : List RawFinancial) :
    Except AnalysisRunError (List KPISnapshotRecord) :=
  if rows = [] then .error .no_raw_rows
  else
    let snaps := compute_kpi_snapshots rows
    if snaps = [] then .error .no_snapshots
    else .ok snaps

/-! ### C2: sign and range invariants of the snapshot metrics -/

/-- Input for the C2 counterexample: a negative subscription_revenue amount
alongside a churn refund in the same week. -/
def rowsC2 : List RawFinancial :=
  [{ date := 0, category := "subscription_revenue", amount := -100, customer_id := none },
   { date := 0, category := "churn_refund", amount := -50, customer_id := none }]

/-- Benign input for the C2 witness. -/
def rowsC2w : List RawFinancial :=
  [{ date := 0, category := "subscription_revenue", amount := 1000, customer_id := some "a" },
   { date := 0, category := "cogs", amount := -300, customer_id := none }]

/-! ### C3: the only error is the empty-input error -/

/-- Single-row input for the C3 witness. -/
def rowsC3w : List RawFinancial :=
  [{ date := 3, category := "salary_expense", amount := -500, customer_id := none }]

/-! ## Scenario stress test (§4.6, `compute_scenario_stress_test`) -/

/-- Embeds `ScenarioResult` (narrative `key_risks`/`recommended_actions` strings
carry no semantics for the claims and are not modelled). -/
structure ScenarioResult where
  scenario : String
  months_runway : ℚ
  projected_mrr_6mo : ℚ
  series_a_readiness : String
deriving DecidableEq

/-- Embeds `_months_runway`: 99 for a profitable company, else
`round(cash / weekly_burn / 4.33, 1)`. -/
def monthsRunway (cash weekly_burn : ℚ) : ℚ :=
  if weekly_burn ≤ 0 then 99 else pyRound 1 (cash / weekly_burn / (433/100))

/-- Embeds `_projected_mrr_6mo`. -/
def projectedMrr6mo (base_mrr weekly_growth : ℚ) : ℚ :=
  base_mrr * (1 + weekly_growth) ^ (26 : ℕ)

/-- Embeds `_series_a_readiness`. -/
def seriesAReadiness (proj_mrr adj_burn weekly_growth : ℚ) : String :=
  if 100000 ≤ proj_mrr ∧ safeDiv (adj_burn * 52) (max (proj_mrr * weekly_growth * 52) 1) 99 ≤ 2
    then "READY"
  else if 50000 ≤ proj_mrr ∨ 3/100 ≤ weekly_growth then "6_MONTHS"
  else "NOT_READY"

/-- Embeds `last_mrr = max(float(latest.mrr), 1.0)`. -/
def scenarioLastMrr (snapshots : List KPISnapshotRecord) : ℚ :=
  max (snapshots.getLastD (mkSnapshot [] [] 0)).mrr 1

/-- Embeds `last_burn = max(float(latest.burn_rate), 0.0)`. -/
def scenarioLastBurn (snapshots : List KPISnapshotRecord) : ℚ :=
  max (snapshots.getLastD (mkSnapshot [] [] 0)).burn_rate 0

/-- Weekly MRR growth estimate from 4 (or 2) periods back, floored at −15%. -/
def scenarioGrowth (snapshots : List KPISnapshotRecord) : ℚ :=
  if 4 ≤ snapshots.length then
    max (delta (scenarioLastMrr snapshots)
      (max (snapshots.getD (snapshots.length - 4) (mkSnapshot [] [] 0)).mrr (1/1000)) / 4)
      (-(3/20))
  else if 2 ≤ snapshots.length then
    max (delta (scenarioLastMrr snapshots)
      (max (snapshots.getD (snapshots.length - 2) (mkSnapshot [] [] 0)).mrr (1/1000)))
      (-(3/20))
  else 1/100

/-- The §4.5/§4.6 current-cash heuristic:
`max(max(18·last_mrr, 2·total_burned) − total_burned, 2·last_mrr)`. -/
def scenarioCash (snapshots : List KPISnapshotRecord) : ℚ :=
  max (max (scenarioLastMrr snapshots * 18) ((snapshots.map (fun s => s.burn_rate)).sum * 2)
    - (snapshots.map (fun s => s.burn_rate)).sum) (scenarioLastMrr snapshots * 2)

/-- One scenario row for a `(mrr_mult, burn_mult, growth_mult)` triple. -/
def scenarioOf (snapshots : List KPISnapshotRecord) (name : String)
    (mrr_mult burn_mult growth_mult : ℚ) : ScenarioResult :=
  { scenario := name
    months_runway := monthsRunway (scenarioCash snapshots) (scenarioLastBurn snapshots * burn_mult)
    projected_mrr_6mo := pyRound 2 (projectedMrr6mo (scenarioLastMrr snapshots * mrr_mult)
      (scenarioGrowth snapshots * growth_mult))
    series_a_readiness := seriesAReadiness
      (projectedMrr6mo (scenarioLastMrr snapshots * mrr_mult)
        (scenarioGrowth snapshots * growth_mult))
      (scenarioLastBurn snapshots * burn_mult) (scenarioGrowth snapshots * growth_mult) }

/-- Embeds `compute_scenario_stress_test`: bear `(0.80, 1.15, 0.30)`,
base `(1.00, 1.00, 1.00)`, bull `(1.20, 0.85, 2.50)`. -/
def compute_scenario_stress_test (snapshots : List KPISnapshotRecord) :
    List ScenarioResult :=
  if snapshots = [] then []
  else
    [scenarioOf snapshots "bear" (4/5) (23/20) (3/10),
     scenarioOf snapshots "base" 1 1 1,
     scenarioOf snapshots "bull" (6/5) (17/20) (5/2)]

/-! ### C7: runway ordering -/

/-- A single latest snapshot used by the C7 witness. -/
def snapC7w : KPISnapshotRecord :=
  ⟨0, 1000, 12000, 0, 500, 7/10, 0, 0, zeroMetrics, zeroMetrics⟩

/-! ## Survival simulator (§4.5, `compute_survival_analysis`)

The i.i.d. normal draw `rng.normal(mu, max(sigma, 1.0))` is the one
non-arithmetic ingredient; it is abstracted as an oracle
`shock : path → week → ℚ` giving the weekly cash change of each simulated
path.  Everything downstream of the draws — the 54-week loop, the first
zero-cash week, the ruin counts over 1000 paths, score, label and deadline —
is embedded exactly, so the claims relating the outputs to each other are
settled for every possible draw sequence. -/

/-- Embeds `SurvivalResult`: the dict returned by `compute_survival_analysis`
(`fundraising_deadline` is kept as the day offset added to `today`). -/
structure SurvivalResult where
  score : ℤ
  label : String
  probability_ruin_90d : ℚ
  probability_ruin_180d : ℚ
  probability_ruin_365d : ℚ
  expected_zero_cash_day : ℤ
  fundraising_deadline_days : Option ℤ
deriving DecidableEq

/-- The inner week loop: add the weekly change, record the first week whose
cash is `≤ 0` (as days, `week * 7`). -/
def runWeeks (shock : ℕ → ℚ) : ℕ → ℕ → ℚ → Option ℕ → Option ℕ
  | 0, _, _, ruined => ruined
  | n + 1, week, cash, ruined =>
    runWeeks shock n (week + 1) (cash + shock week)
      (if ruined = none ∧ cash + shock week ≤ 0 then some (week * 7) else ruined)

/-- One path's zero-cash day: 54 weeks, `max_weeks * 7 + 1` if never ruined. -/
def pathZeroCashDays (shock : ℕ → ℚ) (cash0 : ℚ) : ℕ :=
  (runWeeks shock 54 1 cash0 none).getD (54 * 7 + 1)

/-- Embeds `last_mrr = float(mrr_values[-1]) if mrr_values[-1] > 0 else 1.0`. -/
def survivalLastMrr (snapshots : List KPISnapshotRecord) : ℚ :=
  if 0 < (snapshots.getLastD (mkSnapshot [] [] 0)).mrr
  then (snapshots.getLastD (mkSnapshot [] [] 0)).mrr else 1

def survivalTotalBurned (snapshots : List KPISnapshotRecord) : ℚ :=
  (snapshots.map (fun s => s.burn_rate)).sum

/-- Embeds `current_cash = max(max(18·last_mrr, 2·total_burned) − total_burned,
2·last_mrr)`. -/
def survivalCash (snapshots : List KPISnapshotRecord) : ℚ :=
  max (max (survivalLastMrr snapshots * 18) (survivalTotalBurned snapshots * 2)
    - survivalTotalBurned snapshots) (survivalLastMrr snapshots * 2)

/-- The 1000 per-path zero-cash days. -/
def zeroCashDaysList (shock : ℕ → ℕ → ℚ) (snapshots : List KPISnapshotRecord) : List ℕ :=
  (List.range 1000).map (fun i => pathZeroCashDays (shock i) (survivalCash snapshots))

/-- Paths ruined within `cutoff` days. -/
def ruinCount (days : List ℕ) (cutoff : ℕ) : ℕ := days.countP (fun d => d ≤ cutoff)

/-- Embeds `P(ruin ≤ cutoff)` as a fraction of the 1000 paths. -/
def survivalP (shock : ℕ → ℕ → ℚ) (snapshots : List KPISnapshotRecord) (cutoff : ℕ) : ℚ :=
  (ruinCount (zeroCashDaysList shock snapshots) cutoff : ℚ) / 1000

/-- Embeds `survival_score = max(0, min(100, int((1.0 - p_ruin_365) * 100)))` —
note `int(...)` truncates, it does not round. -/
def survivalScoreOf (p : ℚ) : ℤ := max 0 (min 100 (intTrunc ((1 - p) * 100)))

/-- The label thresholds. -/
def survivalLabelOf (score : ℤ) : String :=
  if 80 ≤ score then "SAFE"
  else if 65 ≤ score then "LOW_RISK"
  else if 45 ≤ score then "MODERATE_RISK"
  else if 25 ≤ score then "HIGH_RISK"
  else "CRITICAL"

/-- Fuel-based merge of two sorted lists (structural, kernel-friendly). -/
def mergeFuel : ℕ → List ℚ → List ℚ → List ℚ
  | 0, xs, ys => xs ++ ys
  | _ + 1, [], ys => ys
  | _ + 1, x :: xs, [] => x :: xs
  | n + 1, x :: xs, y :: ys =>
    if x ≤ y then x :: mergeFuel n xs (y :: ys) else y :: mergeFuel n (x :: xs) ys

/-- Fuel-based merge sort. -/
def msortFuel : ℕ → List ℚ → List ℚ
  | 0, l => l
  | n + 1, l =>
    if l.length ≤ 1 then l
    else mergeFuel l.length (msortFuel n (l.take (l.length / 2)))
      (msortFuel n (l.drop (l.length / 2)))

def msortQ (l : List ℚ) : List ℚ := msortFuel l.length l

/-- Embeds `statistics.median` / `np.median`: middle element, or the mean of the two
middle elements for an even length. -/
def medianQ (l : List ℚ) : ℚ :=
  if (msortQ l).length = 0 then 0
  else if (msortQ l).length % 2 = 1 then (msortQ l).getD ((msortQ l).length / 2) 0
  else ((msortQ l).getD ((msortQ l).length / 2 - 1) 0 +
    (msortQ l).getD ((msortQ l).length / 2) 0) / 2

/-- Embeds `expected_zero_day = int(np.median(zero_cash_days))`. -/
def survivalExpectedDay (shock : ℕ → ℕ → ℚ) (snapshots : List KPISnapshotRecord) : ℤ :=
  intTrunc (medianQ ((zeroCashDaysList shock snapshots).map (fun d => (d : ℚ))))

/-- Embeds `compute_survival_analysis`: empty result below 3 snapshots, otherwise
the score/label/ruin-probability record. -/
def compute_survival_analysis (shock : ℕ → ℕ → ℚ) (snapshots : List KPISnapshotRecord) :
    Option SurvivalResult :=
  if snapshots.length < 3 then none
  else some {
    score := survivalScoreOf (survivalP shock snapshots 365)
    label := survivalLabelOf (survivalScoreOf (survivalP shock snapshots 365))
    probability_ruin_90d := pyRound 4 (survivalP shock snapshots 90)
    probability_ruin_180d := pyRound 4 (survivalP shock snapshots 180)
    probability_ruin_365d := pyRound 4 (survivalP shock snapshots 365)
    expected_zero_cash_day := min (survivalExpectedDay shock snapshots) (54 * 7)
    fundraising_deadline_days :=
      if 0 < survivalExpectedDay shock snapshots - 180
      then some (survivalExpectedDay shock snapshots - 180) else none }

/-! ### C4: score is a truncation, not a rounding -/

/-- One snapshot used (three times) by the C4 inputs: mrr 100, burn 0. -/
def snapC4 : KPISnapshotRecord := ⟨0, 100, 1200, 0, 0, 1, 0, 0, zeroMetrics, zeroMetrics⟩

/-- Three identical snapshots: current cash evaluates to 1800. -/
def snapsC4 : List KPISnapshotRecord := [snapC4, snapC4, snapC4]

/-- Draw oracle for the counterexample: the first five paths lose the whole
cash balance in week one, the rest never lose anything. -/
def shockC4 (path : ℕ) (_week : ℕ) : ℚ := if path < 5 then -1800 else 0

/-- All-zero draw oracle for the C4 witness. -/
def shockC4w (_ : ℕ) (_ : ℕ) : ℚ := 0

/-! ## Fraud pattern scanner (§4.7, `detect_fraud_patterns`) -/

/-- Embeds `FraudAlertRecord` (narrative description dropped; `run_id` opaque). -/
structure FraudAlertRecord where
  week_start : ℤ
  category : String
  pattern : String
  severity : String
  amount : ℚ
deriving DecidableEq

/-- The code's `EXPENSE_CATS` set — despite the name it holds the revenue
categories that the expense rules skip. -/
def isRevenueCat (cat : String) : Bool :=
  cat == "subscription_revenue" || cat == "churn_refund"

/-- The amounts of one (week, category) bucket, in row order. -/
def amountsIn (rows : List RawFinancial) (w : ℤ) (cat : String) : List ℚ :=
  (rows.filter (fun r => weekOf r.date == w && r.category == cat)).map (fun r => r.amount)

/-- The categories present in one week, in first-appearance order. -/
def catsOfWeek (rows : List RawFinancial) (w : ℤ) : List String :=
  dedupFirst ((rows.filter (fun r => weekOf r.date == w)).map (fun r => r.category))

/-- Embeds `cat_weekly` keys: all categories, ordered by first active week. -/
def allCats (rows : List RawFinancial) : List String :=
  dedupFirst ((sortedWeeks rows).flatMap (catsOfWeek rows))

/-- Embeds `cat_weekly[cat]`: the (week, weekly total) series of one category over
its active weeks, ascending. -/
def catSeries (rows : List RawFinancial) (cat : String) : List (ℤ × ℚ) :=
  ((sortedWeeks rows).filter
    (fun w => rows.any (fun r => weekOf r.date == w && r.category == cat))).map
    (fun w => (w, (amountsIn rows w cat).sum))

/-- Embeds `amount % 1000 == 0` for the absolute amount. -/
def isWholeThousands (q : ℚ) : Bool := (q / 1000).den == 1

/-- Rule 1, `round_number`: non-revenue amounts of at least 1000 divisible by
1000. -/
def rule1 (rows : List RawFinancial) : List FraudAlertRecord :=
  rows.filterMap (fun r =>
    if isRevenueCat r.category then none
    else if 1000 ≤ |r.amount| ∧ isWholeThousands |r.amount| = true then
      some ⟨weekOf r.date, r.category, "round_number", "HIGH", r.amount⟩
    else none)

/-- The trailing window `totals[max(0, i-8):i]` of weekly totals. -/
def velLookback (rows : List RawFinancial) (C : String) (i : ℕ) : List ℚ :=
  (((catSeries rows C).take i).drop (i - 8)).map (fun p => p.2)

/-- The rule-2 guard for index `i` of a category's series: at least two prior
active weeks, nonzero median, and `|total| > 3·|median|`. -/
def velCond (rows : List RawFinancial) (C : String) (i : ℕ) : Prop :=
  2 ≤ (velLookback rows C i).length ∧
  medianQ (velLookback rows C i) ≠ 0 ∧
  3 * |medianQ (velLookback rows C i)| < |((catSeries rows C).getD i (0, 0)).2|

instance (rows : List RawFinancial) (C : String) (i : ℕ) : Decidable (velCond rows C i) :=
  inferInstanceAs (Decidable (_ ∧ _ ∧ _))

/-- The rule-2 alert for index `i` (amount is the rounded weekly total). -/
def mkVelAlert (rows : List RawFinancial) (C : String) (i : ℕ) : FraudAlertRecord :=
  ⟨((catSeries rows C).getD i (0, 0)).1, C, "velocity_spike", "HIGH",
    pyRound 4 ((catSeries rows C).getD i (0, 0)).2⟩

/-- Rule 2, `velocity_spike`, for one category: skipped entirely when the
series has fewer than 4 active weeks. -/
def velocityAlertsFor (rows : List RawFinancial) (C : String) : List FraudAlertRecord :=
  if (catSeries rows C).length < 4 then []
  else (List.range (catSeries rows C).length).filterMap (fun i =>
    if velCond rows C i then some (mkVelAlert rows C i) else none)

def rule2 (rows : List RawFinancial) : List FraudAlertRecord :=
  (allCats rows).flatMap (velocityAlertsFor rows)

/-- Rule 3, `duplicate_amount`: a rounded amount seen at least twice in one
(week, category) bucket. -/
def rule3 (rows : List RawFinancial) : List FraudAlertRecord :=
  (sortedWeeks rows).flatMap (fun wk =>
    (catsOfWeek rows wk).flatMap (fun cat =>
      (dedupFirst ((amountsIn rows wk cat).map (pyRound 4))).filterMap (fun key =>
        if 2 ≤ (amountsIn rows wk cat).countP (fun a => pyRound 4 a == key) then
          some ⟨wk, cat, "duplicate_amount", "MEDIUM", key⟩
        else none)))

/-- Weekly total of absolute non-revenue amounts. -/
def weekExpenseAbs (rows : List RawFinancial) (wk : ℤ) : ℚ :=
  ((rows.filter (fun r => weekOf r.date == wk && !(isRevenueCat r.category))).map
    (fun r => |r.amount|)).sum

/-- Rule 4, `zero_revenue_week` (needs at least 4 weeks of history). -/
def rule4 (rows : List RawFinancial) : List FraudAlertRecord :=
  if ((sortedWeeks rows).map (weekExpenseAbs rows)).length < 4 then []
  else (sortedWeeks rows).filterMap (fun wk =>
    if (amountsIn rows wk "subscription_revenue").sum = 0 ∧
        medianQ ((sortedWeeks rows).map (weekExpenseAbs rows)) < weekExpenseAbs rows wk then
      some ⟨wk, "subscription_revenue", "zero_revenue_week", "MEDIUM", 0⟩
    else none)

/-- Rule 5, contractor-to-salary: contractor spend above 2.5× salary. -/
def rule5 (rows : List RawFinancial) : List FraudAlertRecord :=
  (sortedWeeks rows).filterMap (fun wk =>
    if 0 < |(amountsIn rows wk "salary_expense").sum| ∧
        5/2 < |(amountsIn rows wk "contractor_expense").sum| /
          |(amountsIn rows wk "salary_expense").sum| then
      some ⟨wk, "contractor_expense", "contractor_ratio", "LOW",
        pyRound 4 |(amountsIn rows wk "contractor_expense").sum|⟩
    else none)

/-- The dedup key week, category and pattern, joined by a separator in the
code; the pattern names contain no separator, so the string key and the
tuple key agree. -/
def alertKey (a : FraudAlertRecord) : ℤ × String × String :=
  (a.week_start, a.category, a.pattern)

/-- Keep the first alert per key. -/
def dedupAlerts : List FraudAlertRecord → List (ℤ × String × String) →
    List FraudAlertRecord
  | [], _ => []
  | a :: rest, seen =>
    if alertKey a ∈ seen then dedupAlerts rest seen
    else a :: dedupAlerts rest (alertKey a :: seen)

/-- Embeds `detect_fraud_patterns`: the five rules, concatenated then deduplicated. -/
def detect_fraud_patterns (rows : List RawFinancial) : List FraudAlertRecord :=
  dedupAlerts (rule1 rows ++ rule2 rows ++ rule3 rows ++ rule4 rows ++ rule5 rows) []

/-- The claim's condition for a velocity_spike at week `W`, category `C`,
stated from the claim's own words: the weekly total exceeds 3× the median of
the up-to-8 preceding active weeks, at least 2 such weeks existing — with no
series-length precondition, no absolute values and no nonzero-median guard. -/
def specVelocityCond (rows : List RawFinancial) (W : ℤ) (C : String) : Prop :=
  ∃ i < (catSeries rows C).length,
    ((catSeries rows C).getD i (0, 0)).1 = W ∧
    2 ≤ (velLookback rows C i).length ∧
    3 * medianQ (velLookback rows C i) < ((catSeries rows C).getD i (0, 0)).2

/-- The code's actual condition for emitting a velocity_spike at `(W, C)`. -/
def codeVelocityCond (rows : List RawFinancial) (W : ℤ) (C : String) : Prop :=
  4 ≤ (catSeries rows C).length ∧
  ∃ i < (catSeries rows C).length,
    ((catSeries rows C).getD i (0, 0)).1 = W ∧ velCond rows C i

/-! ### C9 support lemmas -/

/-- Input for the C9 counterexample: one category active for exactly three
weeks (totals 10, 10, 100). -/
def rowsC9 : List RawFinancial :=
  [{ date := 0, category := "software_expense", amount := 10, customer_id := none },
   { date := 7, category := "software_expense", amount := 10, customer_id := none },
   { date := 14, category := "software_expense", amount := 100, customer_id := none }]

/-! # Part 2: theorems -/

/-! ## Numeric helpers -/

theorem ratFloor_eq (x : ℚ) : ratFloor x = ⌊x⌋ := Rat.floor_def.symm

theorem roundHalfEven_sub_le (x : ℚ) : |((roundHalfEven x : ℤ) : ℚ) - x| ≤ 1/2 := by
  have hfl : (⌊x⌋ : ℚ) ≤ x := Int.floor_le x
  have hfu : x < (⌊x⌋ : ℚ) + 1 := Int.lt_floor_add_one x
  unfold roundHalfEven
  simp only [ratFloor_eq]
  split
  next h1 => rw [abs_le]; constructor <;> linarith
  next h1 =>
    push_neg at h1
    split
    next h2 => rw [abs_le]; push_cast; constructor <;> linarith
    next h2 =>
      push_neg at h2
      split
      next h3 => rw [abs_le]; constructor <;> linarith
      next h3 => rw [abs_le]; push_cast; constructor <;> linarith

theorem roundHalfEven_mono {x y : ℚ} (h : x ≤ y) : roundHalfEven x ≤ roundHalfEven y := by
  by_contra hlt
  push_neg at hlt
  have hx := roundHalfEven_sub_le x
  have hy := roundHalfEven_sub_le y
  rw [abs_le] at hx hy
  have hz : (roundHalfEven y : ℚ) + 1 ≤ (roundHalfEven x : ℚ) := by
    exact_mod_cast Int.add_one_le_of_lt hlt
  have hxy : x = y := by linarith
  subst hxy
  exact lt_irrefl _ hlt

theorem pyRound_mono (n : ℕ) {x y : ℚ} (h : x ≤ y) : pyRound n x ≤ pyRound n y := by
  unfold pyRound
  have hp : (0:ℚ) < 10 ^ n := by positivity
  have hm := roundHalfEven_mono (mul_le_mul_of_nonneg_right h (le_of_lt hp))
  have hc : ((roundHalfEven (x * 10 ^ n) : ℤ) : ℚ) ≤ ((roundHalfEven (y * 10 ^ n) : ℤ) : ℚ) := by
    exact_mod_cast hm
  gcongr

theorem pyRound_sub_le (n : ℕ) (x : ℚ) : |pyRound n x - x| ≤ 1 / (2 * 10 ^ n) := by
  have hp : (0:ℚ) < 10 ^ n := by positivity
  have hb := roundHalfEven_sub_le (x * 10 ^ n)
  have hrw : pyRound n x - x = (((roundHalfEven (x * 10 ^ n) : ℤ) : ℚ) - x * 10 ^ n) / 10 ^ n := by
    unfold pyRound
    field_simp
    ring
  rw [hrw, abs_div, abs_of_pos hp]
  rw [div_le_div_iff₀ hp (by positivity : (0:ℚ) < 2 * 10 ^ n)]
  calc |((roundHalfEven (x * 10 ^ n) : ℤ) : ℚ) - x * 10 ^ n| * (2 * 10 ^ n)
      ≤ (1/2) * (2 * 10 ^ n) := by
        apply mul_le_mul_of_nonneg_right hb (by positivity)
    _ = 1 * 10 ^ n := by ring

theorem quantHalfUp_nonneg {s x : ℚ} (hs : 0 < s) (hx : 0 ≤ x) : 0 ≤ quantHalfUp s x := by
  unfold quantHalfUp
  simp only [ratFloor_eq]
  rw [if_neg (not_lt.mpr hx)]
  have h0 : (0:ℚ) ≤ ((⌊x * s + 1/2⌋ : ℤ) : ℚ) := by
    have hnn : (0:ℚ) ≤ x * s + 1/2 := by positivity
    exact_mod_cast Int.floor_nonneg.mpr hnn
  exact div_nonneg h0 (le_of_lt hs)

theorem quantHalfUp_le_one {m : ℕ} (hm : 1 ≤ m) {x : ℚ} (hx : x ≤ 1) :
    quantHalfUp (m : ℚ) x ≤ 1 := by
  have hs0 : (0:ℚ) < (m : ℚ) := by exact_mod_cast Nat.lt_of_lt_of_le Nat.zero_lt_one hm
  unfold quantHalfUp
  simp only [ratFloor_eq]
  split
  next hneg =>
    have h0 : (0:ℚ) ≤ ((⌊(-x) * (m:ℚ) + 1/2⌋ : ℤ) : ℚ) := by
      have hnn : (0:ℚ) ≤ (-x) * (m:ℚ) + 1/2 := by nlinarith
      exact_mod_cast Int.floor_nonneg.mpr hnn
    have hdiv : (0:ℚ) ≤ ((⌊(-x) * (m:ℚ) + 1/2⌋ : ℤ) : ℚ) / (m:ℚ) :=
      div_nonneg h0 (le_of_lt hs0)
    linarith
  next hneg =>
    rw [div_le_one hs0]
    have h1 : ⌊x * (m:ℚ) + 1/2⌋ < (m : ℤ) + 1 := by
      apply Int.floor_lt.mpr
      push_cast
      nlinarith
    have h2 : ⌊x * (m:ℚ) + 1/2⌋ ≤ (m : ℤ) := by omega
    exact_mod_cast h2

/-! ### Association-list lemmas for the merge dict -/

theorem insertMerge_cons (k₀ : String × ℤ × String) (v : AnomalyRecord)
    (rest : List ((String × ℤ × String) × AnomalyRecord)) (item : AnomalyRecord) :
    insertMerge ((k₀, v) :: rest) item =
      if k₀ = anomalyKey item then (k₀, mergePick v item) :: rest
      else (k₀, v) :: insertMerge rest item := rfl

theorem lookupA_cons (k₀ : String × ℤ × String) (v : AnomalyRecord)
    (rest : List ((String × ℤ × String) × AnomalyRecord)) (q : String × ℤ × String) :
    lookupA ((k₀, v) :: rest) q = if k₀ = q then some v else lookupA rest q := rfl

theorem mergePick_cases (v r : AnomalyRecord) : mergePick v r = v ∨ mergePick v r = r := by
  unfold mergePick
  split
  · exact Or.inr rfl
  · split
    · exact Or.inr rfl
    · exact Or.inl rfl

theorem insertMerge_lookup (acc : List ((String × ℤ × String) × AnomalyRecord))
    (item : AnomalyRecord) (k : String × ℤ × String) :
    lookupA (insertMerge acc item) k =
      if anomalyKey item = k then combineKey (lookupA acc k) item else lookupA acc k := by
  induction acc with
  | nil =>
    by_cases h : anomalyKey item = k <;> simp [insertMerge, lookupA, combineKey, h]
  | cons p rest ih =>
    obtain ⟨k₀, v⟩ := p
    rw [insertMerge_cons]
    by_cases h₀ : k₀ = anomalyKey item
    · rw [if_pos h₀]
      by_cases hk : k₀ = k
      · have hik : anomalyKey item = k := h₀.symm.trans hk
        rw [lookupA_cons, if_pos hk, if_pos hik, lookupA_cons, if_pos hk]
        rfl
      · have hik : ¬ anomalyKey item = k := fun hc => hk (h₀.trans hc)
        rw [lookupA_cons, if_neg hk, if_neg hik, lookupA_cons, if_neg hk]
    · rw [if_neg h₀]
      by_cases hk : k₀ = k
      · have hik : ¬ anomalyKey item = k := fun hc => h₀ (hk.trans hc.symm)
        rw [lookupA_cons, if_pos hk, if_neg hik, lookupA_cons, if_pos hk]
      · rw [lookupA_cons, if_neg hk, ih, lookupA_cons, if_neg hk]

theorem foldl_insertMerge_lookup (X : List AnomalyRecord) :
    ∀ (acc : List ((String × ℤ × String) × AnomalyRecord)) (k : String × ℤ × String),
    lookupA (X.foldl insertMerge acc) k =
      (X.filter (fun r => anomalyKey r == k)).foldl combineKey (lookupA acc k) := by
  induction X with
  | nil => intro acc k; simp
  | cons r X ih =>
    intro acc k
    simp only [List.foldl_cons, List.filter_cons]
    by_cases h : anomalyKey r = k
    · rw [if_pos (by simp [h])]
      simp only [List.foldl_cons]
      rw [ih, insertMerge_lookup, if_pos h]
    · rw [if_neg (by simp [h])]
      rw [ih, insertMerge_lookup, if_neg h]

theorem insertMerge_of_not_mem {acc : List ((String × ℤ × String) × AnomalyRecord)}
    {item : AnomalyRecord} (h : anomalyKey item ∉ acc.map Prod.fst) :
    insertMerge acc item = acc ++ [(anomalyKey item, item)] := by
  induction acc with
  | nil => simp [insertMerge]
  | cons p rest ih =>
    obtain ⟨k₀, v⟩ := p
    simp only [List.map_cons, List.mem_cons] at h
    push_neg at h
    have hne : ¬ k₀ = anomalyKey item := fun hc => h.1 hc.symm
    rw [insertMerge_cons, if_neg hne, ih h.2]
    rfl

theorem insertMerge_keys_of_mem {acc : List ((String × ℤ × String) × AnomalyRecord)}
    {item : AnomalyRecord} (h : anomalyKey item ∈ acc.map Prod.fst) :
    (insertMerge acc item).map Prod.fst = acc.map Prod.fst := by
  induction acc with
  | nil => simp at h
  | cons p rest ih =>
    obtain ⟨k₀, v⟩ := p
    by_cases h₀ : k₀ = anomalyKey item
    · rw [insertMerge_cons, if_pos h₀, List.map_cons, List.map_cons]
    · simp only [List.map_cons, List.mem_cons] at h
      have hr : anomalyKey item ∈ rest.map Prod.fst := by
        rcases h with h | h
        · exact absurd h.symm h₀
        · exact h
      rw [insertMerge_cons, if_neg h₀, List.map_cons, List.map_cons, ih hr]

theorem insertMerge_kv {acc : List ((String × ℤ × String) × AnomalyRecord)}
    {item : AnomalyRecord} (h : ∀ p ∈ acc, anomalyKey p.2 = p.1) :
    ∀ p ∈ insertMerge acc item, anomalyKey p.2 = p.1 := by
  induction acc with
  | nil =>
    intro p hp
    simp only [insertMerge, List.mem_singleton] at hp
    subst hp
    rfl
  | cons q rest ih =>
    obtain ⟨k₀, v⟩ := q
    intro p hp
    rw [insertMerge_cons] at hp
    by_cases h₀ : k₀ = anomalyKey item
    · rw [if_pos h₀, List.mem_cons] at hp
      rcases hp with hp | hp
      · subst hp
        rcases mergePick_cases v item with hc | hc <;> rw [hc]
        · exact (h (k₀, v) (List.mem_cons_self _ _))
        · exact h₀.symm
      · exact h p (List.mem_cons_of_mem _ hp)
    · rw [if_neg h₀, List.mem_cons] at hp
      rcases hp with hp | hp
      · subst hp
        exact h (k₀, v) (List.mem_cons_self _ _)
      · exact ih (fun q hq => h q (List.mem_cons_of_mem _ hq)) p hp

theorem insertMerge_nodup {acc : List ((String × ℤ × String) × AnomalyRecord)}
    {item : AnomalyRecord} (h : (acc.map Prod.fst).Nodup) :
    ((insertMerge acc item).map Prod.fst).Nodup := by
  by_cases hm : anomalyKey item ∈ acc.map Prod.fst
  · rw [insertMerge_keys_of_mem hm]
    exact h
  · rw [insertMerge_of_not_mem hm, List.map_append]
    simp only [List.map_cons, List.map_nil]
    rw [List.nodup_append]
    refine ⟨h, List.nodup_singleton _, ?_⟩
    intro a ha
    simp only [List.mem_singleton]
    intro hc
    exact hm (hc ▸ ha)

theorem foldl_insertMerge_inv (X : List AnomalyRecord) :
    ∀ acc : List ((String × ℤ × String) × AnomalyRecord),
    (acc.map Prod.fst).Nodup → (∀ p ∈ acc, anomalyKey p.2 = p.1) →
    ((X.foldl insertMerge acc).map Prod.fst).Nodup ∧
      (∀ p ∈ X.foldl insertMerge acc, anomalyKey p.2 = p.1) := by
  induction X with
  | nil => intro acc h1 h2; exact ⟨h1, h2⟩
  | cons r X ih =>
    intro acc h1 h2
    exact ih _ (insertMerge_nodup h1) (insertMerge_kv h2)

theorem lookupA_of_mem {acc : List ((String × ℤ × String) × AnomalyRecord)}
    {k : String × ℤ × String} {v : AnomalyRecord}
    (h : (acc.map Prod.fst).Nodup) (hm : (k, v) ∈ acc) : lookupA acc k = some v := by
  induction acc with
  | nil => simp at hm
  | cons p rest ih =>
    obtain ⟨k₀, v₀⟩ := p
    simp only [List.map_cons, List.nodup_cons] at h
    rcases List.mem_cons.mp hm with hp | hp
    · rw [Prod.mk.injEq] at hp
      rw [lookupA_cons, if_pos hp.1.symm, hp.2]
    · have hk : ¬ k₀ = k := by
        intro hc
        subst hc
        exact h.1 (List.mem_map.mpr ⟨(k₀, v), hp, rfl⟩)
      rw [lookupA_cons, if_neg hk, ih h.2 hp]

theorem mem_of_lookupA {acc : List ((String × ℤ × String) × AnomalyRecord)}
    {k : String × ℤ × String} {v : AnomalyRecord}
    (h : lookupA acc k = some v) : (k, v) ∈ acc := by
  induction acc with
  | nil => simp [lookupA] at h
  | cons p rest ih =>
    obtain ⟨k₀, v₀⟩ := p
    rw [lookupA_cons] at h
    by_cases hk : k₀ = k
    · rw [if_pos hk, Option.some.injEq] at h
      subst hk
      subst h
      exact List.mem_cons_self _ _
    · rw [if_neg hk] at h
      exact List.mem_cons_of_mem _ (ih h)

/-! ### Per-key fold facts -/

theorem foldl_combineKey_some (L : List AnomalyRecord) :
    ∀ v : AnomalyRecord, ∃ w, L.foldl combineKey (some v) = some w := by
  induction L with
  | nil => intro v; exact ⟨v, rfl⟩
  | cons r L ih =>
    intro v
    simpa [combineKey] using ih (mergePick v r)

theorem foldl_combineKey_mem (L : List AnomalyRecord) :
    ∀ v w : AnomalyRecord, L.foldl combineKey (some v) = some w → w = v ∨ w ∈ L := by
  induction L with
  | nil =>
    intro v w h
    simp only [List.foldl_nil, Option.some.injEq] at h
    exact Or.inl h.symm
  | cons r L ih =>
    intro v w h
    simp only [List.foldl_cons, combineKey] at h
    rcases ih _ _ h with hw | hw
    · rcases mergePick_cases v r with hc | hc
      · exact Or.inl (hw.trans hc)
      · exact Or.inr (by rw [hw, hc]; exact List.mem_cons_self _ _)
    · exact Or.inr (List.mem_cons_of_mem _ hw)

theorem foldl_combineKey_mem_none {L : List AnomalyRecord} {w : AnomalyRecord}
    (h : L.foldl combineKey none = some w) : w ∈ L := by
  cases L with
  | nil => simp at h
  | cons r L =>
    simp only [List.foldl_cons, combineKey] at h
    rcases foldl_combineKey_mem L r w h with hw | hw
    · rw [hw]; exact List.mem_cons_self _ _
    · exact List.mem_cons_of_mem _ hw

/-- If the later record is statistical, the merge step keeps a running maximum
of the severity. -/
theorem mergePick_stat {v r : AnomalyRecord} (h : r.source = .isolation_forest) :
    mergePick v r = if severityRank v.severity < severityRank r.severity then r else v := by
  unfold mergePick
  split
  · rfl
  · rw [if_neg]
    intro hc
    rw [h] at hc
    exact absurd hc.1 (by intro hx; cases hx)

theorem foldl_combineKey_stat (L : List AnomalyRecord) :
    ∀ v w : AnomalyRecord, (∀ s ∈ L, s.source = .isolation_forest) →
    L.foldl combineKey (some v) = some w →
    severityRank v.severity ≤ severityRank w.severity ∧
      ∀ s ∈ L, severityRank s.severity ≤ severityRank w.severity := by
  induction L with
  | nil =>
    intro v w _ h
    simp only [List.foldl_nil, Option.some.injEq] at h
    subst h
    exact ⟨le_refl _, by simp⟩
  | cons r L ih =>
    intro v w hsrc h
    simp only [List.foldl_cons, combineKey] at h
    have hr : r.source = .isolation_forest := hsrc r (List.mem_cons_self _ _)
    have ihres := ih (mergePick v r) w (fun s hs => hsrc s (List.mem_cons_of_mem _ hs)) h
    have hvr : severityRank v.severity ≤ severityRank (mergePick v r).severity ∧
        severityRank r.severity ≤ severityRank (mergePick v r).severity := by
      rw [mergePick_stat hr]
      split
      next hlt => exact ⟨le_of_lt hlt, le_refl _⟩
      next hlt => exact ⟨le_refl _, le_of_not_lt hlt⟩
    refine ⟨le_trans hvr.1 ihres.1, ?_⟩
    intro s hs
    rcases List.mem_cons.mp hs with hs | hs
    · subst hs
      exact le_trans hvr.2 ihres.1
    · exact ihres.2 s hs

/-- With all severities equal, the merge step propagates the forecast source. -/
theorem foldl_combineKey_eqsev (L : List AnomalyRecord) :
    ∀ v w : AnomalyRecord, (∀ s ∈ L, s.severity = v.severity) →
    L.foldl combineKey (some v) = some w →
    (w.source = .chronos2 ↔ (v.source = .chronos2 ∨ ∃ s ∈ L, s.source = .chronos2)) ∧
      w.severity = v.severity := by
  induction L with
  | nil =>
    intro v w _ h
    simp only [List.foldl_nil, Option.some.injEq] at h
    subst h
    simp
  | cons r L ih =>
    intro v w hsev h
    simp only [List.foldl_cons, combineKey] at h
    have hrv : r.severity = v.severity := hsev r (List.mem_cons_self _ _)
    have hrank : ¬ severityRank v.severity < severityRank r.severity := by
      rw [hrv]
      exact lt_irrefl _
    have hpick : mergePick v r =
        if r.source = .chronos2 ∧ v.source ≠ .chronos2 then r else v := by
      unfold mergePick
      rw [if_neg hrank]
    have hsev' : (mergePick v r).severity = v.severity := by
      rw [hpick]
      split
      · exact hrv
      · rfl
    have hsrc' : ((mergePick v r).source = .chronos2 ↔
        (v.source = .chronos2 ∨ r.source = .chronos2)) := by
      rw [hpick]
      split
      next hcond => simp [hcond.1]
      next hcond =>
        push_neg at hcond
        constructor
        · exact fun hv => Or.inl hv
        · rintro (hv | hr)
          · exact hv
          · exact hcond hr
    have ihres := ih (mergePick v r) w
      (fun s hs => (hsev s (List.mem_cons_of_mem _ hs)).trans hsev'.symm) h
    refine ⟨?_, ihres.2.trans hsev'⟩
    rw [ihres.1, hsrc']
    constructor
    · rintro ((hv | hr) | ⟨s, hs, hsc⟩)
      · exact Or.inl hv
      · exact Or.inr ⟨r, List.mem_cons_self _ _, hr⟩
      · exact Or.inr ⟨s, List.mem_cons_of_mem _ hs, hsc⟩
    · rintro (hv | ⟨s, hs, hsc⟩)
      · exact Or.inl (Or.inl hv)
      · rcases List.mem_cons.mp hs with hs | hs
        · exact Or.inl (Or.inr (hs ▸ hsc))
        · exact Or.inr ⟨s, hs, hsc⟩

/-- Every record the merger keeps is the per-key fold of the same-key records. -/
theorem merge_mem_fold {X : List AnomalyRecord} {r : AnomalyRecord}
    (h : r ∈ merge_and_deduplicate_anomalies X) :
    (X.filter (fun s => anomalyKey s == anomalyKey r)).foldl combineKey none = some r := by
  unfold merge_and_deduplicate_anomalies at h
  obtain ⟨⟨k, r'⟩, hmem, hr⟩ := List.mem_map.mp h
  cases hr
  have hinv := foldl_insertMerge_inv X [] (by simp) (by simp)
  have hk : anomalyKey r' = k := hinv.2 (k, r') hmem
  have hlook : lookupA (X.foldl insertMerge []) k = some r' := lookupA_of_mem hinv.1 hmem
  rw [foldl_insertMerge_lookup X [] k] at hlook
  rw [hk]
  exact hlook

theorem foldl_insertMerge_fresh (L : List AnomalyRecord) :
    ∀ acc : List ((String × ℤ × String) × AnomalyRecord),
    (∀ r ∈ L, anomalyKey r ∉ acc.map Prod.fst) → (L.map anomalyKey).Nodup →
    L.foldl insertMerge acc = acc ++ L.map (fun r => (anomalyKey r, r)) := by
  induction L with
  | nil => intro acc _ _; simp
  | cons r L ih =>
    intro acc hfresh hnodup
    simp only [List.foldl_cons]
    have hr : anomalyKey r ∉ acc.map Prod.fst := hfresh r (List.mem_cons_self _ _)
    rw [insertMerge_of_not_mem hr]
    simp only [List.map_cons, List.nodup_cons] at hnodup
    have hfresh' : ∀ s ∈ L, anomalyKey s ∉ (acc ++ [(anomalyKey r, r)]).map Prod.fst := by
      intro s hs
      rw [List.map_append]
      simp only [List.mem_append, List.map_cons, List.map_nil, List.mem_singleton]
      push_neg
      refine ⟨hfresh s (List.mem_cons_of_mem _ hs), ?_⟩
      intro hc
      exact hnodup.1 (hc ▸ List.mem_map.mpr ⟨s, hs, rfl⟩)
    rw [ih _ hfresh' hnodup.2, List.append_assoc]
    rfl

theorem merge_keys_nodup (X : List AnomalyRecord) :
    ((merge_and_deduplicate_anomalies X).map anomalyKey).Nodup := by
  have hinv := foldl_insertMerge_inv X [] (by simp) (by simp)
  have hmap : ((X.foldl insertMerge []).map Prod.snd).map anomalyKey =
      (X.foldl insertMerge []).map Prod.fst := by
    rw [List.map_map]
    exact List.map_congr_left (fun p hp => hinv.2 p hp)
  unfold merge_and_deduplicate_anomalies
  rw [hmap]
  exact hinv.1

/-- C8: the merger is idempotent — merging an already-merged list of
anomaly records returns it unchanged (even as a list, not only as a set). -/
theorem C8_merge_idempotent (X : List AnomalyRecord) :
    merge_and_deduplicate_anomalies (merge_and_deduplicate_anomalies X) =
      merge_and_deduplicate_anomalies X := by
  have hnodup := merge_keys_nodup X
  have hfresh : ∀ r ∈ merge_and_deduplicate_anomalies X,
      anomalyKey r ∉ (([] : List ((String × ℤ × String) × AnomalyRecord)).map Prod.fst) := by
    simp
  conv_lhs => rw [merge_and_deduplicate_anomalies]
  rw [foldl_insertMerge_fresh _ _ hfresh hnodup]
  simp only [List.nil_append, List.map_map]
  exact List.map_id _

/-! ### C1: what the merger guarantees per key -/

/-- C1 (counterexample): the claim that the kept record always has the
maximal severity of its key group fails — a LOW-severity `chronos2` (forecast)
record replaces a HIGH-severity `isolation_forest` (statistical) record with
the same key, because the second branch of the merge loop prefers the
forecast source without comparing severities. -/
theorem C1_counterexample :
    ¬ (∀ r ∈ merge_and_deduplicate_anomalies [isoHighC1, chroLowC1],
        ∀ s ∈ [isoHighC1, chroLowC1], anomalyKey s = anomalyKey r →
          severityRank s.severity ≤ severityRank r.severity) := by
  with_unfolding_all decide

/-- C1 (amended): `merge_and_deduplicate_anomalies` keeps exactly one
record per key, and every kept record is one of the input records of its key
group with no key lost. When no forecast-source record shares the key, the
kept record has the maximal severity of the group, and when all records of
the key share one severity the forecast source is preferred; but a forecast
record replaces a same-key statistical record regardless of severity (see the
counterexample), so the maximal-severity guarantee does not hold for mixed
sources. -/
theorem C1_merge_per_key (X : List AnomalyRecord) :
    ((merge_and_deduplicate_anomalies X).map anomalyKey).Nodup ∧
    (∀ r ∈ merge_and_deduplicate_anomalies X, r ∈ X) ∧
    (∀ r ∈ X, ∃ r' ∈ merge_and_deduplicate_anomalies X, anomalyKey r' = anomalyKey r) ∧
    (∀ r ∈ merge_and_deduplicate_anomalies X,
      (∀ s ∈ X, anomalyKey s = anomalyKey r → s.source = .isolation_forest) →
      ∀ s ∈ X, anomalyKey s = anomalyKey r →
        severityRank s.severity ≤ severityRank r.severity) ∧
    (∀ r ∈ merge_and_deduplicate_anomalies X,
      (∀ s ∈ X, anomalyKey s = anomalyKey r → s.severity = r.severity) →
      (∃ s ∈ X, anomalyKey s = anomalyKey r ∧ s.source = .chronos2) →
      r.source = .chronos2) := by
  refine ⟨merge_keys_nodup X, ?_, ?_, ?_, ?_⟩
  · intro r hr
    have hfold := merge_mem_fold hr
    have hmem := foldl_combineKey_mem_none hfold
    exact (List.mem_filter.mp hmem).1
  · intro r hr
    have hinv := foldl_insertMerge_inv X [] (by simp) (by simp)
    have hlook : lookupA (X.foldl insertMerge []) (anomalyKey r) =
        (X.filter (fun s => anomalyKey s == anomalyKey r)).foldl combineKey none := by
      rw [foldl_insertMerge_lookup]
      rfl
    have hrF : r ∈ X.filter (fun s => anomalyKey s == anomalyKey r) :=
      List.mem_filter.mpr ⟨hr, by simp⟩
    cases hF : X.filter (fun s => anomalyKey s == anomalyKey r) with
    | nil => rw [hF] at hrF; simp at hrF
    | cons f F =>
      obtain ⟨w, hw⟩ := foldl_combineKey_some F f
      have hlook2 : lookupA (X.foldl insertMerge []) (anomalyKey r) = some w := by
        rw [hlook, hF]
        simpa [combineKey] using hw
      have hmemA := mem_of_lookupA hlook2
      refine ⟨w, ?_, hinv.2 _ hmemA⟩
      unfold merge_and_deduplicate_anomalies
      exact List.mem_map.mpr ⟨(anomalyKey r, w), hmemA, rfl⟩
  · intro r hr hsrc s hs hkey
    have hfold := merge_mem_fold hr
    have hsF : s ∈ X.filter (fun t => anomalyKey t == anomalyKey r) :=
      List.mem_filter.mpr ⟨hs, by simp [hkey]⟩
    cases hF : X.filter (fun t => anomalyKey t == anomalyKey r) with
    | nil => rw [hF] at hsF; simp at hsF
    | cons f F =>
      rw [hF] at hfold
      simp only [List.foldl_cons, combineKey] at hfold
      have hsrcF : ∀ t ∈ F, t.source = .isolation_forest := by
        intro t ht
        have htF : t ∈ X.filter (fun u => anomalyKey u == anomalyKey r) := by
          rw [hF]; exact List.mem_cons_of_mem _ ht
        have := List.mem_filter.mp htF
        exact hsrc t this.1 (by simpa using this.2)
      have hstat := foldl_combineKey_stat F f r hsrcF hfold
      rw [hF] at hsF
      rcases List.mem_cons.mp hsF with hsf | hsf
      · subst hsf
        exact hstat.1
      · exact hstat.2 s hsf
  · intro r hr hsev ⟨s, hs, hskey, hschr⟩
    have hfold := merge_mem_fold hr
    have hsF : s ∈ X.filter (fun t => anomalyKey t == anomalyKey r) :=
      List.mem_filter.mpr ⟨hs, by simp [hskey]⟩
    cases hF : X.filter (fun t => anomalyKey t == anomalyKey r) with
    | nil => rw [hF] at hsF; simp at hsF
    | cons f F =>
      rw [hF] at hfold
      simp only [List.foldl_cons, combineKey] at hfold
      have hfX := List.mem_filter.mp (by rw [hF]; exact List.mem_cons_self f F :
        f ∈ X.filter (fun t => anomalyKey t == anomalyKey r))
      have hfsev : f.severity = r.severity := hsev f hfX.1 (by simpa using hfX.2)
      have hsevF : ∀ t ∈ F, t.severity = f.severity := by
        intro t ht
        have htF : t ∈ X.filter (fun u => anomalyKey u == anomalyKey r) := by
          rw [hF]; exact List.mem_cons_of_mem _ ht
        have htX := List.mem_filter.mp htF
        rw [hsev t htX.1 (by simpa using htX.2), hfsev]
      have heq := foldl_combineKey_eqsev F f r hsevF hfold
      rw [heq.1, or_iff_not_imp_left]
      intro hfnot
      rw [hF] at hsF
      rcases List.mem_cons.mp hsF with hsf | hsf
      · exact absurd (hsf ▸ hschr) hfnot
      · exact ⟨s, hsf, hschr⟩

theorem C1_merge_per_key_witness :
    (∀ r ∈ merge_and_deduplicate_anomalies [isoLowC1w, isoHighC1w],
      r ∈ [isoLowC1w, isoHighC1w]) ∧
    severityRank isoLowC1w.severity ≤ severityRank isoHighC1w.severity := by
  have h := C1_merge_per_key [isoLowC1w, isoHighC1w]
  refine ⟨h.2.1, ?_⟩
  exact h.2.2.2.1 isoHighC1w (by with_unfolding_all decide) (by with_unfolding_all decide)
    isoLowC1w (by with_unfolding_all decide) (by with_unfolding_all decide)

/-! ### Customer profile lemmas -/

theorem mem_dedupFirstAux {α : Type} [DecidableEq α] (l : List α) :
    ∀ (seen : List α) (x : α), x ∈ dedupFirstAux seen l ↔ x ∈ l ∧ x ∉ seen := by
  induction l with
  | nil => intro seen x; simp [dedupFirstAux]
  | cons a rest ih =>
    intro seen x
    by_cases h : a ∈ seen
    · rw [show dedupFirstAux seen (a :: rest) = dedupFirstAux seen rest by
        simp [dedupFirstAux, h]]
      rw [ih]
      constructor
      · exact fun ⟨h1, h2⟩ => ⟨List.mem_cons_of_mem _ h1, h2⟩
      · rintro ⟨h1, h2⟩
        rcases List.mem_cons.mp h1 with rfl | h1
        · exact absurd h h2
        · exact ⟨h1, h2⟩
    · rw [show dedupFirstAux seen (a :: rest) = a :: dedupFirstAux (a :: seen) rest by
        simp [dedupFirstAux, h]]
      constructor
      · intro hx
        rcases List.mem_cons.mp hx with rfl | hx
        · exact ⟨List.mem_cons_self _ _, h⟩
        · have := (ih _ _).mp hx
          refine ⟨List.mem_cons_of_mem _ this.1, fun hc => this.2 (List.mem_cons_of_mem _ hc)⟩
      · rintro ⟨h1, h2⟩
        by_cases hxa : x = a
        · exact hxa ▸ List.mem_cons_self _ _
        · rcases List.mem_cons.mp h1 with rfl | h1
          · exact absurd rfl hxa
          · refine List.mem_cons_of_mem _ ((ih _ _).mpr ⟨h1, ?_⟩)
            intro hc
            rcases List.mem_cons.mp hc with rfl | hc
            · exact hxa rfl
            · exact h2 hc

theorem mem_dedupFirst {α : Type} [DecidableEq α] {l : List α} {x : α} :
    x ∈ dedupFirst l ↔ x ∈ l := by
  rw [dedupFirst, mem_dedupFirstAux]
  simp

theorem mem_custIds {rows : List RawFinancial} {c : String} :
    c ∈ custIds rows ↔ ∃ r ∈ rows, hasCustomerId r = true ∧
      r.category = "subscription_revenue" ∧ r.customer_id = some c := by
  unfold custIds
  rw [mem_dedupFirst]
  simp only [List.mem_filterMap, List.mem_filter, Bool.and_eq_true, beq_iff_eq]
  constructor
  · rintro ⟨r, ⟨hmem, hid, hcat⟩, hsome⟩
    exact ⟨r, hmem, hid, hcat, hsome⟩
  · rintro ⟨r, hmem, hid, hcat, hsome⟩
    exact ⟨r, ⟨hmem, hid, hcat⟩, hsome⟩

theorem mem_custIds_ne_empty {rows : List RawFinancial} {c : String}
    (h : c ∈ custIds rows) : c ≠ "" := by
  obtain ⟨r, _, hid, _, hsome⟩ := mem_custIds.mp h
  unfold hasCustomerId at hid
  rw [hsome] at hid
  simpa using hid

theorem insertByRevenue_perm (p : CustomerProfileRecord) (l : List CustomerProfileRecord) :
    List.Perm (insertByRevenue p l) (p :: l) := by
  induction l with
  | nil => exact List.Perm.refl _
  | cons q qs ih =>
    unfold insertByRevenue
    split
    · exact List.Perm.refl _
    · exact (List.Perm.cons q ih).trans (List.Perm.swap p q qs)

theorem foldl_insertByRevenue_perm (l : List CustomerProfileRecord) :
    ∀ acc, List.Perm (l.foldl (fun acc p => insertByRevenue p acc) acc) (acc ++ l) := by
  induction l with
  | nil => intro acc; simp
  | cons p l ih =>
    intro acc
    simp only [List.foldl_cons]
    refine (ih (insertByRevenue p acc)).trans ?_
    refine ((insertByRevenue_perm p acc).append_right l).trans ?_
    simpa using List.perm_middle.symm

theorem sortByRevenueDesc_perm (l : List CustomerProfileRecord) :
    List.Perm (sortByRevenueDesc l) l := by
  simpa [sortByRevenueDesc] using foldl_insertByRevenue_perm l []

theorem sum_pyRound4_bound (l : List ℚ) :
    |(l.map (pyRound 4)).sum - l.sum| ≤ (l.length : ℚ) * (1/20000) := by
  induction l with
  | nil => simp
  | cons x xs ih =>
    simp only [List.map_cons, List.sum_cons, List.length_cons]
    have hx := pyRound_sub_le 4 x
    have h4 : (1:ℚ)/(2 * 10^4) = 1/20000 := by norm_num
    rw [h4] at hx
    have step : |pyRound 4 x + (xs.map (pyRound 4)).sum - (x + xs.sum)| ≤
        |pyRound 4 x - x| + |(xs.map (pyRound 4)).sum - xs.sum| := by
      have : pyRound 4 x + (xs.map (pyRound 4)).sum - (x + xs.sum) =
          (pyRound 4 x - x) + ((xs.map (pyRound 4)).sum - xs.sum) := by ring
      rw [this]
      exact abs_add _ _
    refine le_trans step ?_
    have := add_le_add hx ih
    refine le_trans this ?_
    push_cast
    ring_nf
    exact le_refl _

theorem sum_map_div (l : List ℚ) (T : ℚ) : (l.map (fun x => x / T)).sum = l.sum / T := by
  induction l with
  | nil => simp
  | cons x xs ih => simp [ih, add_div]

/-- C5 (counterexample): with three customers of revenue 1 each,
`revenue_pct` is `round(1/3, 4) = 0.3333` for all three, so the sum is
`0.9999`, off from `1.0` by `10⁻⁴ > 10⁻⁶`; the claimed `1e-6` tolerance fails
because each share is rounded to four decimal places before summing. -/
theorem C5_counterexample :
    (∃ r ∈ rowsC5, r.category = "subscription_revenue" ∧ hasCustomerId r = true) ∧
    1/1000000 < |((compute_customer_profiles rowsC5).map (fun p => p.revenue_pct)).sum - 1| := by
  with_unfolding_all decide

/-- C5 (amended): when the run's total customer revenue is positive, the
sum of `revenue_pct` over all customer profiles differs from `1.0` by at most
`n × 5·10⁻⁵` where `n` is the number of customers — each share is
`round(revenue/total, 4)`, and the unrounded shares sum to exactly 1. -/
theorem C5_revenue_pct_sum (rows : List RawFinancial) (hpos : 0 < totalRevenue rows) :
    |((compute_customer_profiles rows).map (fun p => p.revenue_pct)).sum - 1| ≤
      ((custIds rows).length : ℚ) * (1/20000) := by
  have hids : ¬ custIds rows = [] := by
    intro h
    rw [totalRevenue, h] at hpos
    simp at hpos
  unfold compute_customer_profiles
  rw [if_neg hids]
  have hperm := (sortByRevenueDesc_perm
    ((custIds rows).map (mkProfile rows (totalRevenue rows)))).map
    (fun p => p.revenue_pct)
  rw [hperm.sum_eq, List.map_map]
  have hmap : (custIds rows).map ((fun p => p.revenue_pct) ∘ mkProfile rows (totalRevenue rows)) =
      (((custIds rows).map (custRevenue rows)).map (fun x => x / totalRevenue rows)).map
        (pyRound 4) := by
    rw [List.map_map, List.map_map]
    apply List.map_congr_left
    intro c _
    simp only [Function.comp_apply, mkProfile]
    rw [if_pos hpos]
  rw [hmap]
  have hsum : (((custIds rows).map (custRevenue rows)).map
      (fun x => x / totalRevenue rows)).sum = 1 := by
    rw [sum_map_div]
    exact div_self (ne_of_gt hpos)
  have hbound := sum_pyRound4_bound
    (((custIds rows).map (custRevenue rows)).map (fun x => x / totalRevenue rows))
  rw [hsum] at hbound
  simpa using hbound

theorem C5_revenue_pct_sum_witness :
    0 < totalRevenue rowsC5w ∧
    |((compute_customer_profiles rowsC5w).map (fun p => p.revenue_pct)).sum - 1| ≤
      ((custIds rowsC5w).length : ℚ) * (1/20000) :=
  ⟨by with_unfolding_all decide, C5_revenue_pct_sum rowsC5w (by with_unfolding_all decide)⟩

/-- C6: the code adds raw `row.date` values to the `customer_weeks` set,
so `weeks_active` counts distinct transaction DATES, not distinct
Monday-aligned weeks.  Two rows in one calendar week (days 0 and 1 — Monday
and Tuesday) give `weeks_active = 2` and `avg_weekly_revenue = 100`, whereas
the specified distinct-week count is 1 (and the average would be 200). -/
theorem C6_weeks_active_counts_dates :
    (compute_customer_profiles rowsC6).map (fun p => p.weeks_active) = [2] ∧
    dedupFirst (rowsC6.map (fun r => weekOf r.date)) = [0] ∧
    (compute_customer_profiles rowsC6).map (fun p => p.avg_weekly_revenue) = [100] := by
  with_unfolding_all decide

/-! ### C10: which rows and customers produce profiles -/

theorem filter_filter_eq {α : Type} (L : List α) (p q : α → Bool)
    (h : ∀ r, q r = true → p r = true) : (L.filter p).filter q = L.filter q := by
  induction L with
  | nil => rfl
  | cons r L ih =>
    by_cases hp : p r = true
    · simp [List.filter_cons, hp, ih]
    · have hq : q r = false := by
        cases hqr : q r
        · rfl
        · exact absurd (h r hqr) hp
      simp [List.filter_cons, hp, hq, ih]

theorem any_filter_eq {α : Type} (L : List α) (p q : α → Bool)
    (h : ∀ r, q r = true → p r = true) : (L.filter p).any q = L.any q := by
  induction L with
  | nil => rfl
  | cons r L ih =>
    by_cases hp : p r = true
    · simp [List.filter_cons, hp, List.any_cons, ih]
    · have hq : q r = false := by
        cases hqr : q r
        · rfl
        · exact absurd (h r hqr) hp
      simp [List.filter_cons, hp, List.any_cons, hq, ih]

theorem subRowsFor_filter {rows : List RawFinancial} {c : String} (hc : c ≠ "") :
    subRowsFor (rows.filter hasCustomerId) c = subRowsFor rows c := by
  unfold subRowsFor
  apply filter_filter_eq
  intro r hq
  rw [Bool.and_eq_true, beq_iff_eq, beq_iff_eq] at hq
  unfold hasCustomerId
  rw [hq.2]
  simpa using hc

theorem custChurned_filter {rows : List RawFinancial} {c : String} (hc : c ≠ "") :
    custChurned (rows.filter hasCustomerId) c = custChurned rows c := by
  unfold custChurned
  apply any_filter_eq
  intro r hq
  rw [Bool.and_eq_true, beq_iff_eq, beq_iff_eq] at hq
  unfold hasCustomerId
  rw [hq.2]
  simpa using hc

theorem custIds_filter (rows : List RawFinancial) :
    custIds (rows.filter hasCustomerId) = custIds rows := by
  unfold custIds
  rw [filter_filter_eq]
  intro r hq
  rw [Bool.and_eq_true] at hq
  exact hq.1

theorem mkProfile_filter {rows : List RawFinancial} {t : ℚ} {c : String} (hc : c ≠ "") :
    mkProfile (rows.filter hasCustomerId) t c = mkProfile rows t c := by
  unfold mkProfile custRevenue weeksActive custDates custFirst custLast
  rw [subRowsFor_filter hc, custChurned_filter hc]

/-- C10: `compute_customer_profiles` ignores every row whose
`customer_id` is null or empty (filtering them away changes nothing); every
produced profile stems from some subscription_revenue row carrying that
(non-empty) customer id — in particular a customer named only by churn_refund
rows gets no profile; and when no subscription_revenue row has a usable
customer id the result is the empty list, not an error. -/
theorem C10_customer_id_handling (rows : List RawFinancial) :
    compute_customer_profiles (rows.filter hasCustomerId) = compute_customer_profiles rows ∧
    (∀ p ∈ compute_customer_profiles rows, ∃ r ∈ rows,
      r.category = "subscription_revenue" ∧ r.customer_id = some p.customer_id ∧
        p.customer_id ≠ "") ∧
    (∀ c : String, (∀ r ∈ rows, r.customer_id = some c →
        r.category ≠ "subscription_revenue") →
      ∀ p ∈ compute_customer_profiles rows, p.customer_id ≠ c) ∧
    ((∀ r ∈ rows, r.category = "subscription_revenue" → hasCustomerId r = false) →
      compute_customer_profiles rows = []) := by
  have hmem2 : ∀ p ∈ compute_customer_profiles rows, ∃ r ∈ rows,
      r.category = "subscription_revenue" ∧ r.customer_id = some p.customer_id ∧
        p.customer_id ≠ "" := by
    intro p hp
    unfold compute_customer_profiles at hp
    by_cases hids : custIds rows = []
    · rw [if_pos hids] at hp
      simp at hp
    · rw [if_neg hids] at hp
      have hp' := (sortByRevenueDesc_perm _).mem_iff.mp hp
      obtain ⟨c, hc, hpc⟩ := List.mem_map.mp hp'
      obtain ⟨r, hr, _, hcat, hsome⟩ := mem_custIds.mp hc
      have hne := mem_custIds_ne_empty hc
      have hpid : p.customer_id = c := by rw [← hpc]; rfl
      exact ⟨r, hr, hcat, by rw [hpid]; exact hsome, by rw [hpid]; exact hne⟩
  refine ⟨?_, hmem2, ?_, ?_⟩
  · unfold compute_customer_profiles
    rw [custIds_filter]
    by_cases hids : custIds rows = []
    · rw [if_pos hids, if_pos hids]
    · rw [if_neg hids, if_neg hids]
      have htot : totalRevenue (rows.filter hasCustomerId) = totalRevenue rows := by
        unfold totalRevenue custRevenue
        rw [custIds_filter]
        congr 1
        apply List.map_congr_left
        intro c hc
        rw [subRowsFor_filter (mem_custIds_ne_empty hc)]
      rw [htot]
      congr 1
      apply List.map_congr_left
      intro c hc
      exact mkProfile_filter (mem_custIds_ne_empty hc)
  · intro c hchurn p hp hpc
    obtain ⟨r, hr, hcat, hsome, _⟩ := hmem2 p hp
    exact hchurn r hr (hpc ▸ hsome) hcat
  · intro hnone
    have hids : custIds rows = [] := by
      rw [List.eq_nil_iff_forall_not_mem]
      intro c hc
      obtain ⟨r, hr, hid, hcat, _⟩ := mem_custIds.mp hc
      rw [hnone r hr hcat] at hid
      cases hid
    unfold compute_customer_profiles
    rw [if_pos hids]

theorem C10_customer_id_handling_witness :
    compute_customer_profiles rowsC10w = [] :=
  (C10_customer_id_handling rowsC10w).2.2.2 (by with_unfolding_all decide)

/-! ### C2: sign and range invariants of the snapshot metrics -/

theorem safeDiv_nonneg {n d dflt : ℚ} (hn : 0 ≤ n) (hd : 0 ≤ d) (h0 : 0 ≤ dflt) :
    0 ≤ safeDiv n d dflt := by
  unfold safeDiv
  split
  · exact h0
  · exact div_nonneg hn hd

theorem weekRevenue_nonneg {rows : List RawFinancial} {w : ℤ}
    (h : ∀ r ∈ rows, r.category = "subscription_revenue" → 0 ≤ r.amount) :
    0 ≤ weekRevenue rows w := by
  unfold weekRevenue weekCatSum
  apply List.sum_nonneg
  intro x hx
  obtain ⟨r, hr, rfl⟩ := List.mem_map.mp hx
  have hmem := List.mem_filter.mp hr
  rw [Bool.and_eq_true, beq_iff_eq, beq_iff_eq] at hmem
  exact h r hmem.1 hmem.2.2

theorem rawLtv_nonneg {rows : List RawFinancial} {hist : List MetricMap} {w : ℤ}
    (hrev : 0 ≤ weekRevenue rows w) : 0 ≤ rawLtv rows hist w := by
  unfold rawLtv
  apply safeDiv_nonneg
  · apply mul_nonneg
    · unfold rawArpuAnnual
      apply mul_nonneg _ (by norm_num)
      exact safeDiv_nonneg hrev (Nat.cast_nonneg _) (le_refl 0)
    · exact le_trans (by norm_num) (le_max_right (rawGrossMargin rows w) (1/100))
  · exact le_trans (by norm_num) (le_max_right _ (1/20))
  · exact le_refl 0

theorem mem_buildSnapshots {rows : List RawFinancial} :
    ∀ {ws : List ℤ} {hist : List MetricMap} {s : KPISnapshotRecord},
    s ∈ buildSnapshots rows ws hist → ∃ hist' w, s = mkSnapshot rows hist' w := by
  intro ws
  induction ws with
  | nil => intro hist s h; simp [buildSnapshots] at h
  | cons w ws ih =>
    intro hist s h
    rw [buildSnapshots] at h
    rcases List.mem_cons.mp h with h | h
    · exact ⟨hist, w, h⟩
    · exact ih h

theorem compute_rowsC2_eq : compute_kpi_snapshots rowsC2 = [mkSnapshot rowsC2 [] 0] := by
  unfold compute_kpi_snapshots
  rw [show sortedWeeks rowsC2 = [0] from by with_unfolding_all decide]
  rfl

/-- C2 (counterexample): with a negative subscription_revenue amount the
weekly revenue is negative, `churn_rate = min(50 / (-100), 1) = -1/2 < 0` and
`ltv < 0`, so the claimed bounds do not hold for every input list. -/
theorem C2_counterexample :
    ¬ (∀ s ∈ compute_kpi_snapshots rowsC2, 0 ≤ s.churn_rate ∧ 0 ≤ s.ltv) := by
  intro h
  have hs := h (mkSnapshot rowsC2 [] 0)
    (compute_rowsC2_eq ▸ List.mem_cons_self _ _)
  have hval : (mkSnapshot rowsC2 [] 0).churn_rate = -(1/2) := by
    with_unfolding_all decide
  rw [hval] at hs
  have := hs.1
  norm_num at this

/-- C2 (amended): every snapshot satisfies `mrr ≥ 0`, `arr ≥ 0`,
`burn_rate ≥ 0`, `cac ≥ 0` and `churn_rate ≤ 1` unconditionally; when every
subscription_revenue amount is non-negative (as the data model intends) also
`0 ≤ churn_rate` and `0 ≤ ltv`.  `gross_margin` alone may be negative. -/
theorem C2_snapshot_invariants (rows : List RawFinancial) :
    ∀ s ∈ compute_kpi_snapshots rows,
      0 ≤ s.mrr ∧ 0 ≤ s.arr ∧ 0 ≤ s.burn_rate ∧ 0 ≤ s.cac ∧ s.churn_rate ≤ 1 ∧
      ((∀ r ∈ rows, r.category = "subscription_revenue" → 0 ≤ r.amount) →
        0 ≤ s.churn_rate ∧ 0 ≤ s.ltv) := by
  intro s hs
  obtain ⟨hist, w, rfl⟩ := mem_buildSnapshots hs
  refine ⟨?_, ?_, ?_, ?_, ?_, ?_⟩
  · exact quantHalfUp_nonneg (by norm_num) (le_max_right _ _)
  · exact quantHalfUp_nonneg (by norm_num)
      (mul_nonneg (le_max_right _ _) (by norm_num))
  · exact quantHalfUp_nonneg (by norm_num) (le_max_right _ _)
  · exact quantHalfUp_nonneg (by norm_num)
      (safeDiv_nonneg (abs_nonneg _) (Nat.cast_nonneg _) (le_refl 0))
  · have h1 : rawChurnRate rows w ≤ 1 := min_le_right _ _
    have := quantHalfUp_le_one (m := 10000) (by norm_num) h1
    simpa using this
  · intro hpos
    have hrev := weekRevenue_nonneg (w := w) hpos
    constructor
    · apply quantHalfUp_nonneg (by norm_num)
      exact le_min (safeDiv_nonneg (abs_nonneg _) hrev (le_refl 0)) zero_le_one
    · exact quantHalfUp_nonneg (by norm_num) (rawLtv_nonneg hrev)

theorem C2_snapshot_invariants_witness :
    0 ≤ (mkSnapshot rowsC2w [] 0).churn_rate ∧ 0 ≤ (mkSnapshot rowsC2w [] 0).ltv := by
  have hlist : compute_kpi_snapshots rowsC2w = [mkSnapshot rowsC2w [] 0] := by
    unfold compute_kpi_snapshots
    rw [show sortedWeeks rowsC2w = [0] from by with_unfolding_all decide]
    rfl
  have h := C2_snapshot_invariants rowsC2w (mkSnapshot rowsC2w [] 0)
    (hlist ▸ List.mem_cons_self _ _)
  exact h.2.2.2.2.2 (by with_unfolding_all decide)

/-! ### C3: the only error is the empty-input error -/

theorem length_insertSortedZ (x : ℤ) (l : List ℤ) :
    (insertSortedZ x l).length = l.length + 1 := by
  induction l with
  | nil => rfl
  | cons y ys ih =>
    unfold insertSortedZ
    split
    · rfl
    · simp [ih]

theorem length_sortZ (l : List ℤ) : (sortZ l).length = l.length := by
  induction l with
  | nil => rfl
  | cons x xs ih =>
    show (insertSortedZ x (sortZ xs)).length = xs.length + 1
    rw [length_insertSortedZ, ih]

theorem length_buildSnapshots (rows : List RawFinancial) :
    ∀ (ws : List ℤ) (hist : List MetricMap),
    (buildSnapshots rows ws hist).length = ws.length := by
  intro ws
  induction ws with
  | nil => intro hist; rfl
  | cons w ws ih =>
    intro hist
    rw [buildSnapshots]
    simp [ih]

theorem one_le_length_snapshots {rows : List RawFinancial} (h : rows ≠ []) :
    1 ≤ (compute_kpi_snapshots rows).length := by
  unfold compute_kpi_snapshots
  rw [length_buildSnapshots]
  unfold sortedWeeks
  rw [length_sortZ]
  cases hrows : rows with
  | nil => exact absurd hrows h
  | cons r rest =>
    rw [List.map_cons]
    rw [show dedupFirst (weekOf r.date :: rest.map (fun r => weekOf r.date)) =
        weekOf r.date :: dedupFirstAux [weekOf r.date] (rest.map (fun r => weekOf r.date)) by
      simp [dedupFirst, dedupFirstAux]]
    simp

/-- C3: the pipeline raises exactly when the transaction set is empty;
for every non-empty input it returns at least one snapshot and no error ever
surfaces (the "no snapshots" raise inside `AnalysisAgent.run` is unreachable,
since a non-empty frame always yields at least one weekly bucket). -/
theorem C3_error_iff_empty (rows : List RawFinancial) :
    ((∃ e, analysisRunSnapshots rows = .error e) ↔ rows = []) ∧
    (rows ≠ [] → analysisRunSnapshots rows = .ok (compute_kpi_snapshots rows) ∧
      1 ≤ (compute_kpi_snapshots rows).length) := by
  have hok : rows ≠ [] → analysisRunSnapshots rows = .ok (compute_kpi_snapshots rows) := by
    intro h
    have hlen := one_le_length_snapshots h
    have hsnap : ¬ compute_kpi_snapshots rows = [] := by
      intro hc
      rw [hc] at hlen
      simp at hlen
    unfold analysisRunSnapshots
    rw [if_neg h]
    show (if compute_kpi_snapshots rows = [] then Except.error AnalysisRunError.no_snapshots
      else Except.ok (compute_kpi_snapshots rows)) = Except.ok (compute_kpi_snapshots rows)
    rw [if_neg hsnap]
  refine ⟨⟨?_, ?_⟩, fun h => ⟨hok h, one_le_length_snapshots h⟩⟩
  · rintro ⟨e, he⟩
    by_contra hrows
    rw [hok hrows] at he
    cases he
  · intro h
    refine ⟨.no_raw_rows, ?_⟩
    unfold analysisRunSnapshots
    rw [if_pos h]

theorem C3_error_iff_empty_witness :
    analysisRunSnapshots rowsC3w = .ok (compute_kpi_snapshots rowsC3w) ∧
    1 ≤ (compute_kpi_snapshots rowsC3w).length :=
  (C3_error_iff_empty rowsC3w).2 (by with_unfolding_all decide)

/-! ### C7: runway ordering -/

theorem scenarioCash_pos (snapshots : List KPISnapshotRecord) : 0 < scenarioCash snapshots := by
  unfold scenarioCash
  have h1 : (1:ℚ) ≤ scenarioLastMrr snapshots := le_max_right _ _
  have h2 : (2:ℚ) ≤ scenarioLastMrr snapshots * 2 := by linarith
  calc (0:ℚ) < 2 := by norm_num
    _ ≤ scenarioLastMrr snapshots * 2 := h2
    _ ≤ _ := le_max_right _ _

theorem monthsRunway_anti {cash b : ℚ} (hcash : 0 < cash) (hb : 0 < b)
    {m1 m2 : ℚ} (hm1 : 0 < m1) (h12 : m1 ≤ m2) :
    monthsRunway cash (b * m2) ≤ monthsRunway cash (b * m1) := by
  have hbm1 : 0 < b * m1 := mul_pos hb hm1
  have hbm2 : 0 < b * m2 := mul_pos hb (lt_of_lt_of_le hm1 h12)
  unfold monthsRunway
  rw [if_neg (not_le.mpr hbm1), if_neg (not_le.mpr hbm2)]
  apply pyRound_mono
  gcongr

/-- C7: for every non-empty snapshot list the three scenarios come back in
the order bear, base, bull with
`bear.months_runway ≤ base.months_runway ≤ bull.months_runway` — the shared
cash estimate is positive and the runway is antitone in the burn multiplier
(all three burns are zero together when the latest burn rate is zero). -/
theorem C7_scenario_runway_order (snapshots : List KPISnapshotRecord)
    (h : snapshots ≠ []) :
    ∃ bear base bull,
      compute_scenario_stress_test snapshots = [bear, base, bull] ∧
      bear.months_runway ≤ base.months_runway ∧
      base.months_runway ≤ bull.months_runway := by
  have hcash := scenarioCash_pos snapshots
  have hb0 : (0:ℚ) ≤ scenarioLastBurn snapshots := le_max_right _ _
  refine ⟨_, _, _, by rw [compute_scenario_stress_test, if_neg h], ?_, ?_⟩
  · rcases eq_or_lt_of_le hb0 with heq | hpos
    · show monthsRunway _ (scenarioLastBurn snapshots * (23/20)) ≤
        monthsRunway _ (scenarioLastBurn snapshots * 1)
      rw [← heq]
      norm_num
    · exact monthsRunway_anti hcash hpos (by norm_num) (by norm_num)
  · rcases eq_or_lt_of_le hb0 with heq | hpos
    · show monthsRunway _ (scenarioLastBurn snapshots * 1) ≤
        monthsRunway _ (scenarioLastBurn snapshots * (17/20))
      rw [← heq]
      norm_num
    · exact monthsRunway_anti hcash hpos (by norm_num) (by norm_num)

theorem C7_scenario_runway_order_witness :
    ∃ bear base bull,
      compute_scenario_stress_test [snapC7w] = [bear, base, bull] ∧
      bear.months_runway ≤ base.months_runway ∧
      base.months_runway ≤ bull.months_runway :=
  C7_scenario_runway_order [snapC7w] (List.cons_ne_nil _ _)

/-! ### C4: score is a truncation, not a rounding -/

theorem roundHalfEven_intCast (z : ℤ) : roundHalfEven (z : ℚ) = z := by
  unfold roundHalfEven
  simp only [ratFloor_eq, Int.floor_intCast, sub_self]
  rw [if_pos (by norm_num)]

theorem pyRound_natCast_div_1000 (k : ℕ) : pyRound 4 ((k : ℚ) / 1000) = (k : ℚ) / 1000 := by
  unfold pyRound
  rw [show ((k : ℚ) / 1000) * 10 ^ 4 = (((10 * k : ℕ) : ℤ) : ℚ) by push_cast; ring,
    roundHalfEven_intCast]
  push_cast
  ring

theorem survivalLabelOf_spec (score : ℤ) :
    (survivalLabelOf score = "SAFE" ↔ 80 ≤ score) ∧
    (survivalLabelOf score = "LOW_RISK" ↔ 65 ≤ score ∧ score < 80) ∧
    (survivalLabelOf score = "MODERATE_RISK" ↔ 45 ≤ score ∧ score < 65) ∧
    (survivalLabelOf score = "HIGH_RISK" ↔ 25 ≤ score ∧ score < 45) ∧
    (survivalLabelOf score = "CRITICAL" ↔ score < 25) := by
  unfold survivalLabelOf
  split_ifs with h1 h2 h3 h4 <;> refine ⟨?_, ?_, ?_, ?_, ?_⟩ <;> simp_all <;> omega

/-- C4 (amended): whenever `compute_survival_analysis` returns a result,
`probability_ruin_365d` is exactly the fraction of the 1000 simulated paths
whose cash reaches ≤ 0 within 365 days, the score is
`clamp(trunc(100·(1−P)), 0, 100)` — `int()` TRUNCATES rather than rounds —
and the label follows the stated thresholds; this holds for every draw
sequence of the random number generator. -/
theorem C4_survival_score (shock : ℕ → ℕ → ℚ) (snapshots : List KPISnapshotRecord)
    (res : SurvivalResult) (h : compute_survival_analysis shock snapshots = some res) :
    res.probability_ruin_365d =
      (ruinCount (zeroCashDaysList shock snapshots) 365 : ℚ) / 1000 ∧
    res.score = max 0 (min 100 (intTrunc ((1 - res.probability_ruin_365d) * 100))) ∧
    (res.label = "SAFE" ↔ 80 ≤ res.score) ∧
    (res.label = "LOW_RISK" ↔ 65 ≤ res.score ∧ res.score < 80) ∧
    (res.label = "MODERATE_RISK" ↔ 45 ≤ res.score ∧ res.score < 65) ∧
    (res.label = "HIGH_RISK" ↔ 25 ≤ res.score ∧ res.score < 45) ∧
    (res.label = "CRITICAL" ↔ res.score < 25) := by
  unfold compute_survival_analysis at h
  split at h
  · simp at h
  · rw [Option.some.injEq] at h
    subst h
    have hp : pyRound 4 (survivalP shock snapshots 365) = survivalP shock snapshots 365 :=
      pyRound_natCast_div_1000 _
    refine ⟨hp, ?_, ?_, ?_, ?_, ?_, ?_⟩
    · show survivalScoreOf (survivalP shock snapshots 365) = _
      rw [hp]
      rfl
    · exact (survivalLabelOf_spec _).1
    · exact (survivalLabelOf_spec _).2.1
    · exact (survivalLabelOf_spec _).2.2.1
    · exact (survivalLabelOf_spec _).2.2.2.1
    · exact (survivalLabelOf_spec _).2.2.2.2

theorem survivalCash_snapsC4 : survivalCash snapsC4 = 1800 := by
  with_unfolding_all decide

theorem pathDays_shockC4 (i : ℕ) :
    pathZeroCashDays (shockC4 i) (survivalCash snapsC4) = if i < 5 then 7 else 379 := by
  rw [survivalCash_snapsC4]
  by_cases hi : i < 5
  · rw [if_pos hi, show shockC4 i = fun _ => -1800 from funext fun w => if_pos hi]
    with_unfolding_all decide
  · rw [if_neg hi, show shockC4 i = fun _ => 0 from funext fun w => if_neg hi]
    with_unfolding_all decide

theorem range_countP_lt (k : ℕ) : ∀ n : ℕ,
    (List.range n).countP (fun i => i < k) = min k n := by
  intro n
  induction n with
  | zero => simp
  | succ n ih =>
    rw [List.range_succ, List.countP_append, ih]
    rw [Nat.min_def, Nat.min_def]
    by_cases h : n < k
    · simp only [List.countP_cons, List.countP_nil, decide_eq_true h]
      split_ifs <;> omega
    · simp only [List.countP_cons, List.countP_nil, decide_eq_false h,
        Bool.false_eq_true, if_false]
      split_ifs <;> omega

theorem ruinCount_shockC4 : ruinCount (zeroCashDaysList shockC4 snapsC4) 365 = 5 := by
  unfold ruinCount zeroCashDaysList
  rw [List.countP_map]
  rw [List.countP_congr (q := fun i => i < 5) ?_]
  · rw [range_countP_lt]
    with_unfolding_all decide
  · intro i _
    simp only [Function.comp_apply, pathDays_shockC4 i]
    by_cases hi : i < 5 <;> simp [hi]

/-- C4 (counterexample): with five of the 1000 paths ruined inside 365
days, `P = 0.005` and `100·(1−P) = 99.5`; the code's `int()` truncation gives
score 99, while the claimed `round` would give 100.  The claim as stated is
therefore false. -/
theorem C4_counterexample :
    ∃ res, compute_survival_analysis shockC4 snapsC4 = some res ∧
      res.score = 99 ∧
      max 0 (min 100 (roundHalfEven ((1 - res.probability_ruin_365d) * 100))) = 100 := by
  have hlen : ¬ (snapsC4.length < 3) := by decide
  unfold compute_survival_analysis
  rw [if_neg hlen]
  refine ⟨_, rfl, ?_, ?_⟩
  · show survivalScoreOf (survivalP shockC4 snapsC4 365) = 99
    unfold survivalP
    rw [ruinCount_shockC4]
    with_unfolding_all decide
  · show max 0 (min 100 (roundHalfEven
      ((1 - pyRound 4 (survivalP shockC4 snapsC4 365)) * 100))) = 100
    unfold survivalP
    rw [ruinCount_shockC4]
    with_unfolding_all decide

theorem C4_survival_score_witness :
    ∃ res, compute_survival_analysis shockC4w snapsC4 = some res ∧
      (res.label = "SAFE" ↔ 80 ≤ res.score) := by
  have hlen : ¬ (snapsC4.length < 3) := by decide
  have hres : ∃ res, compute_survival_analysis shockC4w snapsC4 = some res := by
    unfold compute_survival_analysis
    rw [if_neg hlen]
    exact ⟨_, rfl⟩
  obtain ⟨res, hres⟩ := hres
  exact ⟨res, hres, (C4_survival_score shockC4w snapsC4 res hres).2.2.1⟩

/-! ### C9 support lemmas -/

theorem dedupAlerts_subset {L : List FraudAlertRecord} :
    ∀ {seen : List (ℤ × String × String)} {a : FraudAlertRecord},
    a ∈ dedupAlerts L seen → a ∈ L := by
  induction L with
  | nil => intro seen a h; simp [dedupAlerts] at h
  | cons b rest ih =>
    intro seen a h
    unfold dedupAlerts at h
    split at h
    · exact List.mem_cons_of_mem _ (ih h)
    · rcases List.mem_cons.mp h with rfl | h
      · exact List.mem_cons_self _ _
      · exact List.mem_cons_of_mem _ (ih h)

theorem dedupAlerts_key_complete {L : List FraudAlertRecord} :
    ∀ {seen : List (ℤ × String × String)} {a : FraudAlertRecord},
    a ∈ L → alertKey a ∉ seen →
    ∃ a' ∈ dedupAlerts L seen, alertKey a' = alertKey a := by
  induction L with
  | nil => intro seen a h; simp at h
  | cons b rest ih =>
    intro seen a hmem hseen
    unfold dedupAlerts
    split
    next hb =>
      rcases List.mem_cons.mp hmem with rfl | hmem
      · exact absurd hb hseen
      · exact ih hmem hseen
    next hb =>
      by_cases hab : alertKey a = alertKey b
      · exact ⟨b, List.mem_cons_self _ _, hab.symm⟩
      · rcases List.mem_cons.mp hmem with rfl | hmem
        · exact absurd rfl hab
        · have hseen' : alertKey a ∉ alertKey b :: seen := by
            intro hc
            rcases List.mem_cons.mp hc with hc | hc
            · exact hab hc
            · exact hseen hc
          obtain ⟨a', ha', hk⟩ := ih hmem hseen'
          exact ⟨a', List.mem_cons_of_mem _ ha', hk⟩

theorem rule1_pattern {rows : List RawFinancial} {a : FraudAlertRecord}
    (h : a ∈ rule1 rows) : a.pattern = "round_number" := by
  obtain ⟨r, _, hr⟩ := List.mem_filterMap.mp h
  split_ifs at hr
  · rw [Option.some.injEq] at hr
    rw [← hr]

theorem rule3_pattern {rows : List RawFinancial} {a : FraudAlertRecord}
    (h : a ∈ rule3 rows) : a.pattern = "duplicate_amount" := by
  obtain ⟨wk, _, h⟩ := List.mem_flatMap.mp h
  obtain ⟨cat, _, h⟩ := List.mem_flatMap.mp h
  obtain ⟨key, _, hr⟩ := List.mem_filterMap.mp h
  split_ifs at hr
  rw [Option.some.injEq] at hr
  rw [← hr]

theorem rule4_pattern {rows : List RawFinancial} {a : FraudAlertRecord}
    (h : a ∈ rule4 rows) : a.pattern = "zero_revenue_week" := by
  unfold rule4 at h
  split at h
  · simp at h
  · obtain ⟨wk, _, hr⟩ := List.mem_filterMap.mp h
    split_ifs at hr
    rw [Option.some.injEq] at hr
    rw [← hr]

theorem rule5_pattern {rows : List RawFinancial} {a : FraudAlertRecord}
    (h : a ∈ rule5 rows) : a.pattern = "contractor_ratio" := by
  obtain ⟨wk, _, hr⟩ := List.mem_filterMap.mp h
  split_ifs at hr
  rw [Option.some.injEq] at hr
  rw [← hr]

theorem mem_velocityAlertsFor {rows : List RawFinancial} {C : String} {a : FraudAlertRecord} :
    a ∈ velocityAlertsFor rows C ↔
    4 ≤ (catSeries rows C).length ∧ ∃ i < (catSeries rows C).length,
      velCond rows C i ∧ a = mkVelAlert rows C i := by
  unfold velocityAlertsFor
  split
  next hlen =>
    simp only [List.not_mem_nil, false_iff, not_and]
    intro h4
    omega
  next hlen =>
    constructor
    · intro h
      obtain ⟨i, hi, heq⟩ := List.mem_filterMap.mp h
      rw [List.mem_range] at hi
      split_ifs at heq with hc
      rw [Option.some.injEq] at heq
      exact ⟨by omega, i, hi, hc, heq.symm⟩
    · rintro ⟨h4, i, hi, hc, rfl⟩
      apply List.mem_filterMap.mpr
      exact ⟨i, List.mem_range.mpr hi, by rw [if_pos hc]⟩

theorem rule2_mem {rows : List RawFinancial} {a : FraudAlertRecord} :
    a ∈ rule2 rows ↔ ∃ C ∈ allCats rows, a ∈ velocityAlertsFor rows C := by
  unfold rule2
  exact List.mem_flatMap

theorem rule2_pattern {rows : List RawFinancial} {a : FraudAlertRecord}
    (h : a ∈ rule2 rows) : a.pattern = "velocity_spike" ∧ a.severity = "HIGH" := by
  obtain ⟨C, _, h⟩ := rule2_mem.mp h
  obtain ⟨_, i, _, _, rfl⟩ := mem_velocityAlertsFor.mp h
  exact ⟨rfl, rfl⟩

theorem mem_insertSortedZ {x y : ℤ} {l : List ℤ} :
    y ∈ insertSortedZ x l ↔ y = x ∨ y ∈ l := by
  induction l with
  | nil => simp [insertSortedZ]
  | cons z zs ih =>
    unfold insertSortedZ
    split
    · simp
    · simp only [List.mem_cons, ih]
      tauto

theorem mem_sortZ {x : ℤ} {l : List ℤ} : x ∈ sortZ l ↔ x ∈ l := by
  induction l with
  | nil => simp [sortZ]
  | cons z zs ih =>
    show x ∈ insertSortedZ z (sortZ zs) ↔ _
    rw [mem_insertSortedZ, ih]
    simp

theorem mem_sortedWeeks {rows : List RawFinancial} {w : ℤ} :
    w ∈ sortedWeeks rows ↔ ∃ r ∈ rows, weekOf r.date = w := by
  unfold sortedWeeks
  rw [mem_sortZ, mem_dedupFirst]
  constructor
  · intro h
    obtain ⟨r, hr, rfl⟩ := List.mem_map.mp h
    exact ⟨r, hr, rfl⟩
  · rintro ⟨r, hr, rfl⟩
    exact List.mem_map.mpr ⟨r, hr, rfl⟩

theorem mem_allCats_of_series_ne_nil {rows : List RawFinancial} {C : String}
    (h : catSeries rows C ≠ []) : C ∈ allCats rows := by
  unfold catSeries at h
  have hfil : (sortedWeeks rows).filter
      (fun w => rows.any (fun r => weekOf r.date == w && r.category == C)) ≠ [] := by
    intro hc
    rw [hc] at h
    simp at h
  obtain ⟨w, hw⟩ := List.exists_mem_of_ne_nil _ hfil
  have hw' := List.mem_filter.mp hw
  obtain ⟨r, hr, hrw⟩ := List.any_eq_true.mp hw'.2
  rw [Bool.and_eq_true, beq_iff_eq, beq_iff_eq] at hrw
  unfold allCats
  rw [mem_dedupFirst]
  apply List.mem_flatMap.mpr
  refine ⟨w, hw'.1, ?_⟩
  unfold catsOfWeek
  rw [mem_dedupFirst]
  apply List.mem_map.mpr
  refine ⟨r, List.mem_filter.mpr ⟨hr, by simp [hrw.1]⟩, hrw.2⟩

/-- C9 (amended): `detect_fraud_patterns` emits a HIGH velocity_spike
alert for week `W` and category `C` exactly when `C` has at least 4 active
weeks in total (the code skips shorter series), `W` is an active week of `C`
preceded by at least 2 of the up-to-8 immediately preceding active weeks,
the median of those weeks' totals is nonzero, and the ABSOLUTE weekly total
exceeds 3× the ABSOLUTE median. -/
theorem C9_velocity_spike_iff (rows : List RawFinancial) (W : ℤ) (C : String) :
    (∃ a ∈ detect_fraud_patterns rows, a.pattern = "velocity_spike" ∧
      a.week_start = W ∧ a.category = C ∧ a.severity = "HIGH") ↔
    codeVelocityCond rows W C := by
  constructor
  · rintro ⟨a, ha, hpat, hW, hC, _⟩
    have haL := dedupAlerts_subset ha
    simp only [List.mem_append] at haL
    rcases haL with ((((h1 | h2) | h3) | h4) | h5)
    · exact absurd ((rule1_pattern h1).symm.trans hpat) (by decide)
    · obtain ⟨C', hC', hvel⟩ := rule2_mem.mp h2
      obtain ⟨h4len, i, hi, hcond, rfl⟩ := mem_velocityAlertsFor.mp hvel
      have hCC : C' = C := hC
      subst hCC
      exact ⟨h4len, i, hi, hW, hcond⟩
    · exact absurd ((rule3_pattern h3).symm.trans hpat) (by decide)
    · exact absurd ((rule4_pattern h4).symm.trans hpat) (by decide)
    · exact absurd ((rule5_pattern h5).symm.trans hpat) (by decide)
  · rintro ⟨h4len, i, hi, hWi, hcond⟩
    have hser : catSeries rows C ≠ [] := by
      intro hc
      rw [hc] at h4len
      simp at h4len
    have hCmem : C ∈ allCats rows := mem_allCats_of_series_ne_nil hser
    have hmem2 : mkVelAlert rows C i ∈ rule2 rows :=
      rule2_mem.mpr ⟨C, hCmem, mem_velocityAlertsFor.mpr ⟨h4len, i, hi, hcond, rfl⟩⟩
    have hmemL : mkVelAlert rows C i ∈
        rule1 rows ++ rule2 rows ++ rule3 rows ++ rule4 rows ++ rule5 rows := by
      simp only [List.mem_append]
      tauto
    obtain ⟨a', ha', hk⟩ := dedupAlerts_key_complete hmemL (List.not_mem_nil _)
    have hkey : a'.week_start = ((catSeries rows C).getD i (0, 0)).1 ∧
        a'.category = C ∧ a'.pattern = "velocity_spike" := by
      unfold alertKey mkVelAlert at hk
      rw [Prod.mk.injEq, Prod.mk.injEq] at hk
      exact ⟨hk.1, hk.2.1, hk.2.2⟩
    have ha'L := dedupAlerts_subset ha'
    simp only [List.mem_append] at ha'L
    have hsev : a'.severity = "HIGH" := by
      rcases ha'L with ((((h1 | h2) | h3) | h4) | h5)
      · exact absurd ((rule1_pattern h1).symm.trans hkey.2.2) (by decide)
      · exact (rule2_pattern h2).2
      · exact absurd ((rule3_pattern h3).symm.trans hkey.2.2) (by decide)
      · exact absurd ((rule4_pattern h4).symm.trans hkey.2.2) (by decide)
      · exact absurd ((rule5_pattern h5).symm.trans hkey.2.2) (by decide)
    exact ⟨a', ha', hkey.2.2, hkey.1.trans hWi, hkey.2.1, hsev⟩

/-- C9 (counterexample): at week 14 the claim's condition holds — two
prior active weeks with median 10, and 100 > 30 — yet the code emits no
velocity_spike alert at all, because the category's series has only 3 active
weeks and the scanner skips any series shorter than 4; the claimed "no
further precondition on the length of C's series" is false. -/
theorem C9_counterexample :
    specVelocityCond rowsC9 14 "software_expense" ∧
    ¬ (∃ a ∈ detect_fraud_patterns rowsC9, a.pattern = "velocity_spike" ∧
        a.week_start = 14 ∧ a.category = "software_expense" ∧ a.severity = "HIGH") := by
  constructor
  · refine ⟨2, ?_, ?_, ?_, ?_⟩
    · with_unfolding_all decide
    · with_unfolding_all decide
    · with_unfolding_all decide
    · with_unfolding_all decide
  · rintro ⟨a, ha, _⟩
    rw [show detect_fraud_patterns rowsC9 = [] from by with_unfolding_all decide] at ha
    simp at ha
